import Mathlib

/-!
# Traktor Kontrol S3 HID mapping: encoders, jog wheels and the inertia timer

A shallow embedding of the numeric core of
`res/controllers/Traktor-Kontrol-S3-hid-scripts.js`: the three rotary encoder
handlers, `wheelDeltas`, `jogHandler`, `jogTouchHandler` and `finishJogTouch`,
`deckSwitchHandler`, `toggleFX` and `wheelSegmentDistance`, over a model of
the host engine (control values, timer service).

Number model.  JavaScript numbers that the script only ever uses as integers
(encoder readings, tick and time counters) are `Int`; all of them stay far
below 2^53, where double arithmetic on integers is exact.  Other numbers are
rationals, `none` standing for a value that is not a finite number
(`undefined` when read from a table, `NaN` after arithmetic on `undefined`).
The divisions of the jog velocity and the arithmetic of
`wheelSegmentDistance` are rounded to the nearest double by `roundDouble`;
halving, doubling and division by `4` are exact in doubles and are left
exact; the step `0.0125` of the preview position is the rational `1 / 80`.
The inertia time `1.8 ^ rate * 2` is a real number that is irrational in
general: the handlers keep it as the rate it is computed from and decide
`inertiaTime < 100` exactly on integers (`inertiaBelowHundred_iff` relates
the test to the real comparison), and `Delay.Denotes` gives the real number a
delay stands for.  The double that `Math.pow` returns agrees with this test
except for rates within rounding distance of the threshold
`log 50 / log 1.8`, about `6.6555`.
-/

namespace TraktorS3

/-! ## Data model -/

/-- Group names under which the script registers input fields and keys its
tables: the two physical sides and the four channels. -/
inductive Group
  | deck1
  | deck2
  | channel1
  | channel2
  | channel3
  | channel4
  deriving DecidableEq, Repr

/-- The JavaScript string of a group name. -/
def Group.name : Group → String
  | .deck1 => "deck1"
  | .deck2 => "deck2"
  | .channel1 => "[Channel1]"
  | .channel2 => "[Channel2]"
  | .channel3 => "[Channel3]"
  | .channel4 => "[Channel4]"

/-- A number of the engine or of the velocity arithmetic; `none` is a value
that is not a finite number. -/
abbrev JsNum := Option ℚ

/-- Key of the arrays `lastTickVal` and `lastTickTime`: the value of
`deckNumber - 1`, an integer index or `NaN`. -/
inductive WheelKey
  | index (i : Int)
  | nan
  deriving DecidableEq, Repr

/-- The first argument of `wheelDeltas` is an untyped JavaScript value: a
number, or a group name (which is what `jogHandler` passes). -/
inductive DeckArg
  | number (n : Int)
  | group (g : Group)
  deriving DecidableEq, Repr

/-- Value of the expression `deckNumber - 1` used as property key: a group name
is not numeric, so the subtraction yields `NaN`. -/
def DeckArg.minusOne : DeckArg → WheelKey
  | .number n => .index (n - 1)
  | .group _ => .nan

/-- The delay handed to `engine.beginTimer`.  `jogTouchHandler` passes
`Math.pow(1.8, scratchRate) * 2`, a power with a fractional exponent, which is
kept as the scratch rate it is computed from; `finishJogTouch` passes the
literal `100`. -/
inductive Delay
  | inertia (scratchRate : JsNum)
  | hundred
  deriving DecidableEq, Repr

/-- A timer of the host engine whose callback is the code string
`TraktorS3.finishJogTouch("<callback>")`. -/
structure Timer where
  handle : Nat
  delay : Delay
  callback : Group
  oneShot : Bool
  deriving DecidableEq, Repr

/-- Calls made on the host engine, in program order. -/
inductive Effect
  | setValue (group key : String) (value : JsNum)
  | triggerControl (group key : String)
  | beginTimer (delay : Delay) (callback : Group) (oneShot : Bool)
  | stopTimer (handle : Option Nat)
  deriving DecidableEq, Repr

/-- An input field as delivered by the HID packet parser. -/
structure Field where
  group : Group
  value : Int
  deriving DecidableEq, Repr

/-- The mutable tables of the `TraktorS3` object used by the handlers below
(the table `fxEnabledState` is keyed by the channel name as a string),
together with the host engine: its control values, the list of calls made on
it, its live inertia timers, the number of timers it has handed out and
whether its timer service can schedule at the moment. -/
structure State where
  activeDecks : Nat → Bool
  shiftPressed : Group → Bool
  previewPressed : Group → Bool
  browseKnobEncoderState : Group → Option Int
  loopKnobEncoderState : Group → Option Int
  moveKnobEncoderState : Group → Option Int
  tickReceived : Group → Bool
  lastTickVal : WheelKey → Option Int
  lastTickTime : WheelKey → Option Int
  controls : String → String → JsNum
  calls : List Effect
  wheelTouchInertiaTimer : Group → Option Nat
  timers : List Timer
  timerCount : Nat
  canSchedule : Bool
  fxButtonState : Nat → Bool
  fxEnabledState : String → Bool

/-- Table of encoder readings right after construction:
`{"deck1": 0, "deck2": 0}`; any other key reads `undefined`. -/
def initialKnobEncoderState : Group → Option Int
  | .deck1 => some 0
  | .deck2 => some 0
  | _ => none

/-- The arrays `lastTickVal` and `lastTickTime` right after construction:
`[0, 0]`. -/
def initialTicks : WheelKey → Option Int
  | .index 0 => some 0
  | .index 1 => some 0
  | _ => none

/-- The table `wheelTouchInertiaTimer` right after construction: `0` for the
four channels; any other key reads `undefined`. -/
def initialInertiaTimer : Group → Option Nat
  | .channel1 => some 0
  | .channel2 => some 0
  | .channel3 => some 0
  | .channel4 => some 0
  | _ => none

/-- State right after construction of the `TraktorS3` object, over given
engine control values. -/
def initialState (controls : String → String → JsNum) : State where
  activeDecks := fun n => decide (n = 1 ∨ n = 2)
  shiftPressed := fun _ => false
  previewPressed := fun _ => false
  browseKnobEncoderState := initialKnobEncoderState
  loopKnobEncoderState := initialKnobEncoderState
  moveKnobEncoderState := initialKnobEncoderState
  tickReceived := fun _ => false
  lastTickVal := initialTicks
  lastTickTime := initialTicks
  controls := controls
  calls := []
  wheelTouchInertiaTimer := initialInertiaTimer
  timers := []
  timerCount := 0
  canSchedule := true
  fxButtonState := fun n => decide (n = 5)
  fxEnabledState := fun g =>
    decide (g = "[Channel1]" ∨ g = "[Channel2]" ∨ g = "[Channel3]" ∨ g = "[Channel4]")

/-! ## Host engine -/

/-- Modelled from the spec: the control registry of the host, reading a
control with `engine.getValue(group, key)`. -/
def State.getValue (s : State) (group key : String) : JsNum :=
  s.controls group key

/-- Modelled from the spec: the control registry of the host, writing a
control with `engine.setValue(group, key, value)`; the control then holds the
value and the call is recorded. -/
def State.setValue (s : State) (group key : String) (value : JsNum) : State :=
  { s with
    controls := fun g k => if g = group ∧ k = key then value else s.controls g k
    calls := s.calls ++ [Effect.setValue group key value] }

/-- The library call `script.triggerControl(group, key)`, recorded as such. -/
def State.triggerControl (s : State) (group key : String) : State :=
  { s with calls := s.calls ++ [Effect.triggerControl group key] }

/-- Modelled from the spec: the timer service of the host,
`engine.beginTimer(delay, callback, oneShot)`.  When the service can schedule,
a new live timer is created and its handle, which is not `0` and was never
handed out before, is returned; otherwise no timer is created and the handle
`0` is returned. -/
def State.beginTimer (s : State) (delay : Delay) (callback : Group)
    (oneShot : Bool) : State × Nat :=
  if s.canSchedule then
    ({ s with
        timers := s.timers ++
          [{ handle := s.timerCount + 1, delay := delay, callback := callback,
             oneShot := oneShot }]
        timerCount := s.timerCount + 1
        calls := s.calls ++ [Effect.beginTimer delay callback oneShot] },
      s.timerCount + 1)
  else
    ({ s with calls := s.calls ++ [Effect.beginTimer delay callback oneShot] }, 0)

/-- Modelled from the spec: the timer service of the host,
`engine.stopTimer(handle)`.  The timer with that handle is live no longer;
cancellation is authoritative.  A handle that is `undefined` names no
timer. -/
def State.stopTimer (s : State) (handle : Option Nat) : State :=
  { s with
    timers := s.timers.filter (fun t => decide (some t.handle ≠ handle))
    calls := s.calls ++ [Effect.stopTimer handle] }

/-- JavaScript truthiness of a number: neither `0` nor `NaN`. -/
def truthy : JsNum → Bool
  | some q => decide (q ≠ 0)
  | none => false

/-! ## Arithmetic on numbers that may be undefined -/

/-- Division `a / b`; with a zero divisor the result is not a finite number. -/
def jsDiv : JsNum → JsNum → JsNum
  | some a, some b => if b = 0 then none else some (a / b)
  | _, _ => none

/-- Product `a * b`. -/
def jsMul : JsNum → JsNum → JsNum
  | some a, some b => some (a * b)
  | _, _ => none

/-- Sum `a + b`. -/
def jsAdd : JsNum → JsNum → JsNum
  | some a, some b => some (a + b)
  | _, _ => none

/-- Difference `a - b` of an integer and a table entry; `NaN` when the entry
is `undefined`. -/
def intSub (a : Int) : Option Int → Option Int
  | some b => some (a - b)
  | none => none

/-- Comparison `p > b` of a table entry with an integer; false when the entry
is `undefined`. -/
def gtInt : Option Int → Int → Bool
  | some p, b => decide (p > b)
  | none, _ => false

/-- Comparison `p >= b` of a table entry with an integer; false when the entry
is `undefined`. -/
def geInt : Option Int → Int → Bool
  | some p, b => decide (p ≥ b)
  | none, _ => false

/-- Comparison `p <= b` of a table entry with an integer; false when the entry
is `undefined`. -/
def leInt : Option Int → Int → Bool
  | some p, b => decide (p ≤ b)
  | none, _ => false

/-- Embedding of an integer-valued number into the rational-valued ones. -/
def toNum : Option Int → JsNum
  | some n => some (n : ℚ)
  | none => none

/-! ## Rounding to the nearest double -/

/-- Binary logarithm of a positive natural number, rounded down, by repeated
halving; the first argument bounds the number of halvings. -/
def log2Fuel : Nat → Nat → Nat
  | 0, _ => 0
  | fuel + 1, n => if n < 2 then 0 else log2Fuel fuel (n / 2) + 1

/-- Binary logarithm of a positive natural number, rounded down. -/
def log2Floor (n : Nat) : Nat :=
  log2Fuel n n

/-- The binary exponent of a rational `q` that is not zero: the integer `e`
with `2 ^ e <= |q| < 2 ^ (e + 1)`. -/
def binaryExponent (q : ℚ) : ℤ :=
  if (2 : ℚ) ^ ((log2Floor q.num.natAbs : ℤ) - (log2Floor q.den : ℤ)) ≤ |q| then
    (log2Floor q.num.natAbs : ℤ) - (log2Floor q.den : ℤ)
  else (log2Floor q.num.natAbs : ℤ) - (log2Floor q.den : ℤ) - 1

/-- The integer nearest to `m`, a tie going to the even one. -/
def roundHalfEven (m : ℚ) : ℤ :=
  if m - ⌊m⌋ < 1 / 2 then ⌊m⌋
  else if 1 / 2 < m - ⌊m⌋ then ⌊m⌋ + 1
  else if ⌊m⌋ % 2 = 0 then ⌊m⌋ else ⌊m⌋ + 1

/-- The result of an arithmetic operation of JavaScript whose exact value is
`q`: the nearest number with a significand of 53 bits, a tie going to the
even significand (the rounding of IEEE 754 doubles).  The exponent range of
doubles is not modelled: the magnitudes this script computes lie far inside
it. -/
def roundDouble (q : ℚ) : ℚ :=
  if q = 0 then 0
  else
    (roundHalfEven (q * 2 ^ (52 - binaryExponent q)) : ℚ) /
      2 ^ (52 - binaryExponent q)

/-- Division `a / b` of two numbers as JavaScript computes it: the quotient
rounded to the nearest double. -/
def jsDivRounded (a b : JsNum) : JsNum :=
  (jsDiv a b).map roundDouble

/-! ## Deck resolution -/

/-- Source: `TraktorS3.deckToGroup`. -/
def deckToGroup (s : State) (deck : Group) : Group :=
  if deck = .deck1 then
    if s.activeDecks 1 then .channel1
    else if s.activeDecks 3 then .channel3
    else deck
  else if deck = .deck2 then
    if s.activeDecks 2 then .channel2
    else if s.activeDecks 4 then .channel4
    else deck
  else deck

/-! ## Rotary encoders -/

/-- The local variable `delta` of `selectTrackHandler` and
`selectBeatjumpHandler`: `-1` when `(value + 1) % 16` is strictly equal to the
stored reading, `1` otherwise.  The remainder is the truncating one of
JavaScript; an `undefined` stored reading is equal to no number. -/
def encoderDelta (value : Int) (stored : Option Int) : Int :=
  if some (Int.tmod (value + 1) 16) = stored then -1 else 1

/-- Source: `TraktorS3.selectTrackHandler`. -/
def selectTrackHandler (s : State) (field : Field) : State :=
  let activeGroup := deckToGroup s field.group
  if activeGroup.name = "" then s
  else
    let delta := encoderDelta field.value (s.browseKnobEncoderState activeGroup)
    let s1 : State :=
      { s with browseKnobEncoderState :=
          Function.update s.browseKnobEncoderState activeGroup (some field.value) }
    if s1.previewPressed field.group then
      let playPosition := s1.getValue "[PreviewDeck1]" "playposition"
      let moved :=
        if delta > 0 then jsAdd playPosition (some (1 / 80))
        else jsAdd playPosition (some (-(1 / 80)))
      s1.setValue "[PreviewDeck1]" "playposition" moved
    else if s1.shiftPressed field.group then
      s1.setValue "[Library]" "MoveHorizontal" (some (delta : ℚ))
    else
      s1.setValue "[Library]" "MoveVertical" (some (delta : ℚ))

/-- Source: `TraktorS3.selectLoopHandler`. -/
def selectLoopHandler (s : State) (field : Field) : State :=
  let activeGroup := deckToGroup s field.group
  if activeGroup.name = "" then s
  else
    let s1 :=
      if some (Int.tmod (field.value + 1) 16) = s.loopKnobEncoderState activeGroup then
        s.triggerControl activeGroup.name "loop_halve"
      else
        s.triggerControl activeGroup.name "loop_double"
    { s1 with loopKnobEncoderState :=
        Function.update s1.loopKnobEncoderState activeGroup (some field.value) }

/-- Source: `TraktorS3.selectBeatjumpHandler`. -/
def selectBeatjumpHandler (s : State) (field : Field) : State :=
  let activeGroup := deckToGroup s field.group
  if activeGroup.name = "" then s
  else
    let delta := encoderDelta field.value (s.moveKnobEncoderState activeGroup)
    let s1 :=
      if s.shiftPressed field.group then
        let beatjumpSize := s.getValue activeGroup.name "beatjump_size"
        if delta > 0 then
          s.setValue activeGroup.name "beatjump_size" (jsMul beatjumpSize (some 2))
        else
          s.setValue activeGroup.name "beatjump_size" (jsDiv beatjumpSize (some 2))
      else if delta < 0 then
        s.triggerControl activeGroup.name "beatjump_backward"
      else
        s.triggerControl activeGroup.name "beatjump_forward"
    { s1 with moveKnobEncoderState :=
        Function.update s1.moveKnobEncoderState activeGroup (some field.value) }

/-! ## Jog wheel -/

/-- Result of `wheelDeltas`: the returned pair and the state it leaves. -/
structure Deltas where
  tickDelta : Option Int
  timeDelta : Option Int
  state : State

/-- Source: `TraktorS3.wheelDeltas`.  `value & 0xFF` and `value >>> 8` act on
the 32-bit image of `value`, written here as the remainder modulo 2^32. -/
def wheelDeltas (s : State) (deckNumber : DeckArg) (value : Int) : Deltas :=
  let tickval : Int := (value % 4294967296) % 256
  let timeval : Int := (value % 4294967296) / 256
  let prevTick := s.lastTickVal deckNumber.minusOne
  let prevTime := s.lastTickTime deckNumber.minusOne
  let s1 : State :=
    { s with
      lastTickVal := Function.update s.lastTickVal deckNumber.minusOne (some tickval)
      lastTickTime := Function.update s.lastTickTime deckNumber.minusOne (some timeval) }
  let timeval2 : Int := if gtInt prevTime timeval then timeval + 0x100000 else timeval
  let timeDelta0 := intSub timeval2 prevTime
  let timeDelta := if timeDelta0 = some 0 then some 1 else timeDelta0
  let tickDelta :=
    if geInt prevTick 200 && decide (tickval ≤ 100) then
      intSub (tickval + 256) prevTick
    else if leInt prevTick 100 && decide (tickval ≥ 200) then
      (intSub tickval prevTick).map (fun d => d - 256)
    else
      intSub tickval prevTick
  { tickDelta := tickDelta, timeDelta := timeDelta, state := s1 }

/-- The constant `thirtyThree` of `jogHandler`: `768 / 720000`, 768 ticks per
720000 time units, as the double the division yields. -/
def thirtyThree : ℚ := roundDouble (768 / 720000)

/-- The local variable `velocity` of `jogHandler`:
`(tickDelta / timeDelta) / thirtyThree`, both divisions rounded to the nearest
double. -/
def jogVelocity (tickDelta timeDelta : Option Int) : JsNum :=
  jsDivRounded (jsDivRounded (toNum tickDelta) (toNum timeDelta)) (some thirtyThree)

/-- The value `jogHandler` writes to `jog` when scratching is off:
`velocity / 4` while the deck plays, `velocity * 2` otherwise. -/
def jogNudge (playing : Bool) (velocity : JsNum) : JsNum :=
  if playing then jsDiv velocity (some 4) else jsMul velocity (some 2)

/-- Source: `TraktorS3.jogHandler`. -/
def jogHandler (s : State) (field : Field) : State :=
  let activeGroup := deckToGroup s field.group
  if activeGroup.name = "" then s
  else
    let s1 : State :=
      { s with tickReceived := Function.update s.tickReceived activeGroup true }
    let deltas := wheelDeltas s1 (.group activeGroup) field.value
    let velocity := jogVelocity deltas.tickDelta deltas.timeDelta
    let s2 := deltas.state
    if truthy (s2.getValue activeGroup.name "scratch2_enable") then
      s2.setValue activeGroup.name "scratch2" velocity
    else
      s2.setValue activeGroup.name "jog"
        (jogNudge (truthy (s2.getValue activeGroup.name "play")) velocity)

/-! ## Jog touch and the inertia timer -/

/-- The built-in `Math.abs`. -/
def jsAbs : JsNum → JsNum
  | some q => some |q|
  | none => none

/-- The test `inertiaTime < 100` of `jogTouchHandler`, where
`inertiaTime = Math.pow(1.8, scratchRate) * 2`, decided on the exact real
value of the power.  For `scratchRate = a / b` in lowest terms,
`1.8 ^ (a / b) * 2 < 100` is `(9 / 5) ^ a < 50 ^ b`, that is
`9 ^ a < 50 ^ b * 5 ^ a`; for a negative rate the power is below `1`.  A
comparison with `NaN` is false.  The double that `Math.pow` returns can
differ from the real power in its last bits, so the code may take the other
branch for rates within rounding distance of `log 50 / log 1.8`; for rates
up to `6` and from `7` on, and wherever the real value is at most `99`, the
two tests agree. -/
def inertiaBelowHundred : JsNum → Bool
  | some r => decide (9 ^ r.num.toNat < 50 ^ r.den * 5 ^ r.num.toNat)
  | none => false

/-- The real number that a delay stands for: `1.8 ^ scratchRate * 2` for the
delay of `jogTouchHandler`, `100` for the delay of `finishJogTouch`; a delay
computed from `NaN` stands for no real number. -/
def Delay.Denotes : Delay → ℝ → Prop
  | .inertia (some r), t => t = (1.8 : ℝ) ^ (r : ℝ) * 2
  | .inertia none, _ => False
  | .hundred, t => t = 100

/-- The local variable `inertiaTime` of `jogTouchHandler`, for the value of
`scratch2` read at touch-up: `Math.pow(1.8, Math.abs(scratch2)) * 2`. -/
def inertiaTime (scratch2 : JsNum) : Delay :=
  Delay.inertia (jsAbs scratch2)

/-- Source: `TraktorS3.finishJogTouch`.  The booleans written to the engine
are the numbers `1` and `0`. -/
def finishJogTouch (s : State) (group : Group) : State :=
  let s1 : State :=
    { s with wheelTouchInertiaTimer :=
        Function.update s.wheelTouchInertiaTimer group (some 0) }
  let s2 : State :=
    if !s1.tickReceived group then
      (s1.setValue group.name "scratch2" (some 0)).setValue group.name
        "scratch2_enable" (some 0)
    else
      let r := s1.beginTimer Delay.hundred group true
      { r.1 with wheelTouchInertiaTimer :=
          Function.update r.1.wheelTouchInertiaTimer group (some r.2) }
  { s2 with tickReceived := Function.update s2.tickReceived group false }

/-- First block of `TraktorS3.jogTouchHandler`: when the table entry of the
active group is not `0` (the wheel was touched again), stop the timer it
names and reset the entry. -/
def stopPending (s : State) (activeGroup : Group) : State :=
  if s.wheelTouchInertiaTimer activeGroup ≠ some 0 then
    { s.stopTimer (s.wheelTouchInertiaTimer activeGroup) with
      wheelTouchInertiaTimer :=
        Function.update s.wheelTouchInertiaTimer activeGroup (some 0) }
  else s

/-- Source: `TraktorS3.jogTouchHandler`.  `resolveDeck` is the method
`controller.resolveDeck` of the HID library, `none` being `undefined`. -/
def jogTouchHandler (resolveDeck : Group → Option Nat) (s : State)
    (field : Field) : State :=
  let activeGroup := deckToGroup s field.group
  if activeGroup.name = "" then s
  else
    let s1 := stopPending s activeGroup
    if field.value ≠ 0 then
      match resolveDeck activeGroup with
      | none => s1
      | some _ => s1.setValue activeGroup.name "scratch2_enable" (some 1)
    else
      let scratchRate := jsAbs (s1.getValue activeGroup.name "scratch2")
      if inertiaBelowHundred scratchRate then
        finishJogTouch s1 activeGroup
      else
        let r := s1.beginTimer (Delay.inertia scratchRate) activeGroup true
        { r.1 with wheelTouchInertiaTimer :=
            Function.update r.1.wheelTouchInertiaTimer activeGroup (some r.2) }

/-- Modelled from the spec: the timer service of the host runs the callback
of a live timer, here `finishJogTouch` for the group in the code string.  A
timer that is not live (stopped, already run, never scheduled) runs nothing;
a one-shot timer is live no longer once it fires. -/
def fireTimer (s : State) (handle : Nat) : State :=
  match s.timers.find? (fun t => decide (t.handle = handle)) with
  | none => s
  | some t =>
    let s1 : State :=
      if t.oneShot then
        { s with timers := s.timers.filter (fun u => decide (u.handle ≠ handle)) }
      else s
    finishJogTouch s1 t.callback

/-- What can happen to the jog wheels: a touch sensor report, a jog sample,
the host firing a timer, and the timer service of the host becoming able or
unable to schedule. -/
inductive Event
  | jogTouch (field : Field)
  | jog (field : Field)
  | timerFires (handle : Nat)
  | hostSchedulable (able : Bool)
  deriving DecidableEq, Repr

/-- One event, dispatched to its handler. -/
def step (resolveDeck : Group → Option Nat) (s : State) : Event → State
  | .jogTouch field => jogTouchHandler resolveDeck s field
  | .jog field => jogHandler s field
  | .timerFires handle => fireTimer s handle
  | .hostSchedulable able => { s with canSchedule := able }

/-- A sequence of events, handled one after the other. -/
def run (resolveDeck : Group → Option Nat) (s : State) (events : List Event) :
    State :=
  events.foldl (step resolveDeck) s

/-- Modelled from the spec: `controller.resolveDeck` of the HID library,
which gives the number in a channel name and `undefined` for any other
name. -/
def resolveDeck : Group → Option Nat
  | .channel1 => some 1
  | .channel2 => some 2
  | .channel3 => some 3
  | .channel4 => some 4
  | _ => none

/-! ## Deck switching, effect routing and the wheel display -/

/-- Source: `TraktorS3.deckSwitchHandler`.  The calls that follow the update
of `activeDecks` (`engine.softTakeoverIgnoreNextValue` and `lightDeck`, which
only drives the lights) change no table of this model. -/
def deckSwitchHandler (s : State) (field : Field) : State :=
  if field.value = 0 then s
  else if field.group = .channel1 then
    { s with activeDecks :=
        Function.update (Function.update s.activeDecks 1 true) 3 false }
  else if field.group = .channel3 then
    { s with activeDecks :=
        Function.update (Function.update s.activeDecks 3 true) 1 false }
  else if field.group = .channel2 then
    { s with activeDecks :=
        Function.update (Function.update s.activeDecks 2 true) 4 false }
  else if field.group = .channel4 then
    { s with activeDecks :=
        Function.update (Function.update s.activeDecks 4 true) 2 false }
  else s

/-- Everything that happens to the controller in this model: an event of the
jog wheels, or a press or release of a deck switch. -/
inductive Input
  | wheel (event : Event)
  | deckSwitch (field : Field)
  deriving DecidableEq, Repr

/-- One input, dispatched to its handler. -/
def stepInput (resolveDeck : Group → Option Nat) (s : State) : Input → State
  | .wheel event => step resolveDeck s event
  | .deckSwitch field => deckSwitchHandler s field

/-- A sequence of inputs, handled one after the other. -/
def runInputs (resolveDeck : Group → Option Nat) (s : State)
    (inputs : List Input) : State :=
  inputs.foldl (stepInput resolveDeck) s

/-- A boolean handed to `engine.setValue`: the number `1` or `0`. -/
def boolNum (b : Bool) : JsNum :=
  some (if b then 1 else 0)

/-- Body of the inner loop of `TraktorS3.toggleFX`, for one effect number and
one channel number. -/
def toggleFXStep (s : State) (fxNumber ch : Nat) : State :=
  let group := "[Channel" ++ toString ch ++ "]"
  let fxGroup :=
    if fxNumber = 5 then "[QuickEffectRack1_[Channel" ++ toString ch ++ "]_Effect1]"
    else "[EffectRack1_EffectUnit" ++ toString fxNumber ++ "]"
  let fxKey := if fxNumber = 5 then "enabled" else "group_[Channel1]_enable"
  let newState := s.fxEnabledState group && s.fxButtonState fxNumber
  s.setValue fxGroup fxKey (boolNum newState)

/-- Source: `TraktorS3.toggleFX`: effect numbers `1` to `5` in the outer loop,
channels `1` to `4` in the inner loop. -/
def toggleFX (s : State) : State :=
  [1, 2, 3, 4, 5].foldl
    (fun s1 fxNumber =>
      [1, 2, 3, 4].foldl (fun s2 ch => toggleFXStep s2 fxNumber ch) s1)
    s

/-- Source: `TraktorS3.wheelSegmentDistance`; every subtraction and addition
is rounded to the nearest double. -/
def wheelSegmentDistance (segNum angle : ℚ) : ℚ :=
  if |roundDouble (segNum - angle)| > 4 then
    if angle > segNum then |roundDouble (angle - roundDouble (segNum + 8))|
    else |roundDouble (roundDouble (angle + 8) - segNum)|
  else |roundDouble (angle - segNum)|

/-! ## Concrete states used to instantiate the theorems -/

/-- A state in which every encoder table holds the reading `5`, the tick
table holds `250` and the time table `500`, over engine controls that all
read `0`. -/
def sampleState : State where
  activeDecks := fun n => decide (n = 1 ∨ n = 2)
  shiftPressed := fun _ => false
  previewPressed := fun _ => false
  browseKnobEncoderState := fun _ => some 5
  loopKnobEncoderState := fun _ => some 5
  moveKnobEncoderState := fun _ => some 5
  tickReceived := fun _ => false
  lastTickVal := fun _ => some 250
  lastTickTime := fun _ => some 500
  controls := fun _ _ => some 0
  calls := []
  wheelTouchInertiaTimer := initialInertiaTimer
  timers := []
  timerCount := 0
  canSchedule := true
  fxButtonState := fun n => decide (n = 5)
  fxEnabledState := fun g =>
    decide (g = "[Channel1]" ∨ g = "[Channel2]" ∨ g = "[Channel3]" ∨ g = "[Channel4]")

/-- The local variable `velocity` of `jogHandler` for a sample, as a function
of the state in which the sample arrives. -/
def jogSampleVelocity (s : State) (field : Field) : JsNum :=
  let activeGroup := deckToGroup s field.group
  let deltas := wheelDeltas
    { s with tickReceived := Function.update s.tickReceived activeGroup true }
    (.group activeGroup) field.value
  jogVelocity deltas.tickDelta deltas.timeDelta

/-- The live inertia timers agree with the table `wheelTouchInertiaTimer`:
every live timer is the one whose handle the table holds for its group, its
handle is not `0` and was handed out by the host, it is a one-shot timer, and
no two live timers are for the same group. -/
def TimersConsistent (s : State) : Prop :=
  (∀ t ∈ s.timers, s.wheelTouchInertiaTimer t.callback = some t.handle)
  ∧ (∀ t ∈ s.timers, 0 < t.handle ∧ t.handle ≤ s.timerCount)
  ∧ (∀ t ∈ s.timers, t.oneShot = true)
  ∧ s.timers.Pairwise (fun a b => a.callback ≠ b.callback)

/-- A touch report that says the wheel was let go. -/
def Event.isTouchUp : Event → Bool
  | .jogTouch field => decide (field.value = 0)
  | _ => false

/-- A jog sample. -/
def Event.isJog : Event → Bool
  | .jog _ => true
  | _ => false

/-- A state in which a tick has been received for every group, scratching is
enabled (every control named `scratch2_enable` reads `1`) and every other
control, `scratch2` included, reads `0`. -/
def tickedState : State :=
  { sampleState with
    tickReceived := fun _ => true
    controls := fun _ k => if k = "scratch2_enable" then some 1 else some 0 }

/-- A state in which a release check for `[Channel1]` is pending: the live
timer with handle `1`, held in the table, while scratching is enabled. -/
def pendingState : State :=
  { tickedState with
    wheelTouchInertiaTimer := Function.update initialInertiaTimer .channel1 (some 1)
    timers := [{ handle := 1, delay := .hundred, callback := .channel1,
                 oneShot := true }]
    timerCount := 1 }

/-- A state in which the wheel spins fast while scratching: `scratch2` reads
`7` and every other control reads `1`. -/
def fastState : State :=
  { sampleState with
    controls := fun _ k => if k = "scratch2" then some 7 else some 1 }

/-- A state in which effects are switched off for `[Channel1]` and on for the
other three channels, and the buttons of effect unit `1` and of the filter
(`5`) are on. -/
def fxSampleState : State :=
  { sampleState with
    fxEnabledState := fun g =>
      decide (g = "[Channel2]" ∨ g = "[Channel3]" ∨ g = "[Channel4]")
    fxButtonState := fun n => decide (n = 1 ∨ n = 5) }

/-! ## Auxiliary facts -/

theorem Group.name_ne_empty (g : Group) : g.name ≠ "" := by
  cases g <;> decide

theorem tmod_succ_sixteen (c : Int) (h0 : 0 ≤ c) :
    Int.tmod (c + 1) 16 = (c + 1) % 16 := by
  rw [Int.tmod_eq_emod] <;> omega

theorem encoderDelta_some (c p : Int) (h0 : 0 ≤ c) :
    encoderDelta c (some p) = if (c + 1) % 16 = p then -1 else 1 := by
  unfold encoderDelta
  rw [tmod_succ_sixteen c h0]
  by_cases h : (c + 1) % 16 = p <;> simp [h]

/-! ## Rounding to the nearest double: facts -/

theorem log2Fuel_spec (fuel n : Nat) (hf : n ≤ fuel) (hn : 1 ≤ n) :
    2 ^ log2Fuel fuel n ≤ n ∧ n < 2 ^ (log2Fuel fuel n + 1) := by
  induction fuel generalizing n with
  | zero => omega
  | succ fuel ih =>
    unfold log2Fuel
    by_cases h2 : n < 2
    · rw [if_pos h2]
      constructor
      · simpa using hn
      · simpa using h2
    · rw [if_neg h2]
      have h := ih (n / 2) (by omega) (by omega)
      constructor
      · rw [pow_succ]; omega
      · rw [pow_succ]; omega

theorem log2Floor_spec (n : Nat) (hn : 1 ≤ n) :
    2 ^ log2Floor n ≤ n ∧ n < 2 ^ (log2Floor n + 1) :=
  log2Fuel_spec n n (le_refl n) hn


theorem binaryExponent_spec (q : ℚ) (hq : q ≠ 0) :
    (2 : ℚ) ^ binaryExponent q ≤ |q| ∧ |q| < (2 : ℚ) ^ (binaryExponent q + 1) := by
  have hnum : 1 ≤ q.num.natAbs := by
    have : q.num ≠ 0 := Rat.num_ne_zero.mpr hq
    omega
  have hden : 1 ≤ q.den := q.den_pos
  have ha := log2Floor_spec q.num.natAbs hnum
  have hb := log2Floor_spec q.den hden
  have habs : |q| = (q.num.natAbs : ℚ) / (q.den : ℚ) := by
    conv_lhs => rw [← Rat.num_div_den q]
    rw [abs_div, Nat.abs_cast, Nat.cast_natAbs, Int.cast_abs]
  have hdpos : (0 : ℚ) < q.den := by exact_mod_cast q.den_pos
  have ha1 : ((2 : ℚ) ^ log2Floor q.num.natAbs) ≤ (q.num.natAbs : ℚ) := by
    exact_mod_cast ha.1
  have ha2 : (q.num.natAbs : ℚ) < (2 : ℚ) ^ (log2Floor q.num.natAbs + 1) := by
    exact_mod_cast ha.2
  have hb1 : ((2 : ℚ) ^ log2Floor q.den) ≤ (q.den : ℚ) := by exact_mod_cast hb.1
  have hb2 : (q.den : ℚ) < (2 : ℚ) ^ (log2Floor q.den + 1) := by exact_mod_cast hb.2
  have hpa : (0 : ℚ) < 2 ^ log2Floor q.num.natAbs := by positivity
  have hpb : (0 : ℚ) < 2 ^ log2Floor q.den := by positivity
  have e0 : (2 : ℚ) ^ ((log2Floor q.num.natAbs : ℤ) - (log2Floor q.den : ℤ)) =
      2 ^ log2Floor q.num.natAbs / 2 ^ log2Floor q.den := by
    rw [zpow_sub₀ (by norm_num : (2 : ℚ) ≠ 0), zpow_natCast, zpow_natCast]
  have hupper : |q| < 2 * (2 ^ log2Floor q.num.natAbs / 2 ^ log2Floor q.den) := by
    rw [habs, div_lt_iff₀ hdpos]
    calc (q.num.natAbs : ℚ) < 2 ^ (log2Floor q.num.natAbs + 1) := ha2
      _ = 2 * (2 ^ log2Floor q.num.natAbs / 2 ^ log2Floor q.den) *
            2 ^ log2Floor q.den := by
          rw [pow_succ]; field_simp; ring
      _ ≤ 2 * (2 ^ log2Floor q.num.natAbs / 2 ^ log2Floor q.den) * q.den := by
          apply mul_le_mul_of_nonneg_left hb1
          positivity
  have hlower : 2 ^ log2Floor q.num.natAbs / 2 ^ log2Floor q.den / 2 ≤ |q| := by
    rw [habs, le_div_iff₀ hdpos]
    calc 2 ^ log2Floor q.num.natAbs / 2 ^ log2Floor q.den / 2 * (q.den : ℚ)
        ≤ 2 ^ log2Floor q.num.natAbs / 2 ^ log2Floor q.den / 2 *
            2 ^ (log2Floor q.den + 1) := by
          apply mul_le_mul_of_nonneg_left hb2.le
          positivity
      _ = 2 ^ log2Floor q.num.natAbs := by
          rw [pow_succ]; field_simp
      _ ≤ (q.num.natAbs : ℚ) := ha1
  unfold binaryExponent
  split_ifs with h
  · refine ⟨h, ?_⟩
    rw [zpow_add_one₀ (by norm_num : (2 : ℚ) ≠ 0), e0]
    linarith
  · constructor
    · rw [zpow_sub_one₀ (by norm_num : (2 : ℚ) ≠ 0), e0]
      simpa [div_eq_mul_inv] using hlower
    · rw [sub_add_cancel]
      exact not_le.mp h

theorem roundHalfEven_ge (m : ℚ) (j : ℤ) (h : (j : ℚ) ≤ m) : j ≤ roundHalfEven m := by
  have hf : j ≤ ⌊m⌋ := Int.le_floor.mpr h
  unfold roundHalfEven
  split_ifs <;> omega

theorem roundHalfEven_le (m : ℚ) (j : ℤ) (h : m ≤ (j : ℚ)) : roundHalfEven m ≤ j := by
  have hf : (⌊m⌋ : ℚ) ≤ m := Int.floor_le m
  have hfj : ⌊m⌋ ≤ j := by
    have : (⌊m⌋ : ℚ) ≤ (j : ℚ) := le_trans hf h
    exact_mod_cast this
  unfold roundHalfEven
  split_ifs with h1 h2
  · exact hfj
  · have hlt : (⌊m⌋ : ℚ) < (j : ℚ) := by linarith
    have : ⌊m⌋ < j := by exact_mod_cast hlt
    omega
  · exact hfj
  · have hlt : (⌊m⌋ : ℚ) < (j : ℚ) := by linarith
    have : ⌊m⌋ < j := by exact_mod_cast hlt
    omega

theorem roundHalfEven_error (m : ℚ) : |(roundHalfEven m : ℚ) - m| ≤ 1 / 2 := by
  have hf : (⌊m⌋ : ℚ) ≤ m := Int.floor_le m
  have hf2 : m < (⌊m⌋ : ℚ) + 1 := Int.lt_floor_add_one m
  unfold roundHalfEven
  rw [abs_le]
  split_ifs with h1 h2 h3
  · constructor <;> linarith
  · push_cast; constructor <;> linarith
  · constructor <;> linarith
  · push_cast; constructor <;> linarith


theorem roundHalfEven_neg (m : ℚ) : roundHalfEven (-m) = -roundHalfEven m := by
  have hf : (⌊m⌋ : ℚ) ≤ m := Int.floor_le m
  have hf2 : m < (⌊m⌋ : ℚ) + 1 := Int.lt_floor_add_one m
  by_cases hint : m = (⌊m⌋ : ℚ)
  · have hfl : ⌊-m⌋ = -⌊m⌋ := by
      rw [Int.floor_eq_iff]
      push_cast
      constructor <;> linarith
    unfold roundHalfEven
    rw [hfl]
    have h0 : m - (⌊m⌋ : ℚ) = 0 := by linarith
    have h1 : -m - ((-⌊m⌋ : ℤ) : ℚ) = 0 := by push_cast; linarith
    rw [h0, h1]
    norm_num
  · have hlt : (⌊m⌋ : ℚ) < m := lt_of_le_of_ne hf (fun h => hint h.symm)
    have hfl : ⌊-m⌋ = -⌊m⌋ - 1 := by
      rw [Int.floor_eq_iff]
      push_cast
      constructor <;> linarith
    unfold roundHalfEven
    rw [hfl]
    have h1 : -m - ((-⌊m⌋ - 1 : ℤ) : ℚ) = 1 - (m - ⌊m⌋) := by push_cast; ring
    rw [h1]
    by_cases ha : m - (⌊m⌋ : ℚ) < 1 / 2
    · have hb : ¬ (1 - (m - (⌊m⌋ : ℚ)) < 1 / 2) := by linarith
      have hc : 1 / 2 < 1 - (m - (⌊m⌋ : ℚ)) := by linarith
      rw [if_pos ha, if_neg hb, if_pos hc]
      ring
    · by_cases hb : 1 / 2 < m - (⌊m⌋ : ℚ)
      · have hc : 1 - (m - (⌊m⌋ : ℚ)) < 1 / 2 := by linarith
        rw [if_neg ha, if_pos hb, if_pos hc]
        ring
      · have hc : ¬ (1 - (m - (⌊m⌋ : ℚ)) < 1 / 2) := by linarith
        have hd : ¬ (1 / 2 < 1 - (m - (⌊m⌋ : ℚ))) := by linarith
        rw [if_neg ha, if_neg hb, if_neg hc, if_neg hd]
        by_cases he : ⌊m⌋ % 2 = 0
        · have hg : ¬ ((-⌊m⌋ - 1) % 2 = 0) := by omega
          rw [if_pos he, if_neg hg]
          ring
        · have hg : (-⌊m⌋ - 1) % 2 = 0 := by omega
          rw [if_neg he, if_pos hg]
          ring

theorem binaryExponent_neg (q : ℚ) : binaryExponent (-q) = binaryExponent q := by
  unfold binaryExponent
  simp only [Rat.neg_num, Rat.neg_den, Int.natAbs_neg, abs_neg]

theorem roundDouble_neg (q : ℚ) : roundDouble (-q) = -roundDouble q := by
  unfold roundDouble
  by_cases h : q = 0
  · simp [h]
  · have h2 : -q ≠ 0 := neg_ne_zero.mpr h
    rw [if_neg h, if_neg h2, binaryExponent_neg, neg_mul, roundHalfEven_neg]
    push_cast
    ring

theorem roundDouble_zero : roundDouble 0 = 0 := by
  simp [roundDouble]

theorem scaled_ge (q : ℚ) (hq : 0 < q) :
    (2 : ℚ) ^ (52 : ℕ) ≤ q * 2 ^ (52 - binaryExponent q) := by
  have h := (binaryExponent_spec q hq.ne').1
  rw [abs_of_pos hq] at h
  have hP : (0 : ℚ) < 2 ^ (52 - binaryExponent q) := by positivity
  calc (2 : ℚ) ^ (52 : ℕ) = 2 ^ binaryExponent q * 2 ^ (52 - binaryExponent q) := by
        rw [← zpow_add₀ (by norm_num : (2 : ℚ) ≠ 0)]
        norm_num
    _ ≤ q * 2 ^ (52 - binaryExponent q) := mul_le_mul_of_nonneg_right h hP.le

theorem roundDouble_pos (q : ℚ) (hq : 0 < q) : 0 < roundDouble q := by
  unfold roundDouble
  rw [if_neg hq.ne']
  have hP : (0 : ℚ) < 2 ^ (52 - binaryExponent q) := by positivity
  have h1 : ((2 ^ 52 : ℤ) : ℚ) ≤ q * 2 ^ (52 - binaryExponent q) := by
    push_cast
    exact scaled_ge q hq
  have h2 := roundHalfEven_ge _ _ h1
  have h3 : (0 : ℚ) < (roundHalfEven (q * 2 ^ (52 - binaryExponent q)) : ℚ) := by
    have : (0 : ℤ) < roundHalfEven (q * 2 ^ (52 - binaryExponent q)) := by
      have : (0 : ℤ) < 2 ^ 52 := by norm_num
      omega
    exact_mod_cast this
  exact div_pos h3 hP

theorem roundDouble_neg_of_neg (q : ℚ) (hq : q < 0) : roundDouble q < 0 := by
  have h := roundDouble_pos (-q) (by linarith)
  rw [roundDouble_neg] at h
  linarith


theorem binaryExponent_lt (q : ℚ) (hq : q ≠ 0) (k : ℤ) (h : |q| < (2 : ℚ) ^ k) :
    binaryExponent q < k := by
  have h1 := (binaryExponent_spec q hq).1
  have h2 : (2 : ℚ) ^ binaryExponent q < (2 : ℚ) ^ k := lt_of_le_of_lt h1 h
  exact (zpow_lt_zpow_iff_right₀ (by norm_num : (1 : ℚ) < 2)).mp h2

theorem roundDouble_le_int (q : ℚ) (c : ℤ) (hq : |q| < (2 : ℚ) ^ (53 : ℤ))
    (h : q ≤ (c : ℚ)) : roundDouble q ≤ (c : ℚ) := by
  by_cases h0 : q = 0
  · rw [h0, roundDouble_zero]
    rw [h0] at h
    exact h
  · have he := binaryExponent_lt q h0 53 hq
    obtain ⟨n, hn⟩ : ∃ n : ℕ, 52 - binaryExponent q = (n : ℤ) :=
      ⟨(52 - binaryExponent q).toNat, (Int.toNat_of_nonneg (by omega)).symm⟩
    unfold roundDouble
    rw [if_neg h0, hn, zpow_natCast]
    have hP : (0 : ℚ) < 2 ^ n := by positivity
    rw [div_le_iff₀ hP]
    have h1 : q * 2 ^ n ≤ ((c * 2 ^ n : ℤ) : ℚ) := by
      push_cast
      exact mul_le_mul_of_nonneg_right h hP.le
    have h2 := roundHalfEven_le _ _ h1
    have h3 : (roundHalfEven (q * 2 ^ n) : ℚ) ≤ ((c * 2 ^ n : ℤ) : ℚ) := by
      exact_mod_cast h2
    simpa using h3

theorem roundDouble_ge_int (q : ℚ) (c : ℤ) (hq : |q| < (2 : ℚ) ^ (53 : ℤ))
    (h : (c : ℚ) ≤ q) : (c : ℚ) ≤ roundDouble q := by
  have h1 := roundDouble_le_int (-q) (-c) (by rwa [abs_neg]) (by push_cast; linarith)
  rw [roundDouble_neg] at h1
  push_cast at h1
  linarith

theorem roundDouble_int (c : ℤ) (hc : |(c : ℚ)| < (2 : ℚ) ^ (53 : ℤ)) :
    roundDouble (c : ℚ) = (c : ℚ) :=
  le_antisymm (roundDouble_le_int _ c hc (le_refl _)) (roundDouble_ge_int _ c hc (le_refl _))

theorem roundDouble_error (q : ℚ) (k : ℤ) (h : |q| < (2 : ℚ) ^ k) :
    |roundDouble q - q| ≤ (2 : ℚ) ^ (k - 54) := by
  by_cases h0 : q = 0
  · rw [h0, roundDouble_zero, sub_zero, abs_zero]
    positivity
  · have he := binaryExponent_lt q h0 k h
    unfold roundDouble
    rw [if_neg h0]
    have hP : (0 : ℚ) < 2 ^ (52 - binaryExponent q) := by positivity
    have hr := roundHalfEven_error (q * 2 ^ (52 - binaryExponent q))
    have e1 : (roundHalfEven (q * 2 ^ (52 - binaryExponent q)) : ℚ) /
          2 ^ (52 - binaryExponent q) - q =
        ((roundHalfEven (q * 2 ^ (52 - binaryExponent q)) : ℚ) -
          q * 2 ^ (52 - binaryExponent q)) / 2 ^ (52 - binaryExponent q) := by
      field_simp
      ring
    rw [e1, abs_div, abs_of_pos hP, div_le_iff₀ hP]
    have e2 : (2 : ℚ) ^ (k - 54) * 2 ^ (52 - binaryExponent q) =
        2 ^ (k - 2 - binaryExponent q) := by
      rw [← zpow_add₀ (by norm_num : (2 : ℚ) ≠ 0)]
      congr 1
      ring
    rw [e2]
    have e3 : (1 : ℚ) / 2 = 2 ^ (-1 : ℤ) := by norm_num
    calc |(roundHalfEven (q * 2 ^ (52 - binaryExponent q)) : ℚ) -
          q * 2 ^ (52 - binaryExponent q)| ≤ 1 / 2 := hr
      _ = 2 ^ (-1 : ℤ) := e3
      _ ≤ 2 ^ (k - 2 - binaryExponent q) :=
          zpow_le_zpow_right₀ (by norm_num) (by omega)

theorem roundDouble_rel_error (q : ℚ) :
    |roundDouble q - q| ≤ |q| / 2 ^ (53 : ℕ) := by
  by_cases h0 : q = 0
  · rw [h0, roundDouble_zero]
    simp
  · have hs := binaryExponent_spec q h0
    have h1 := roundDouble_error q (binaryExponent q + 1) hs.2
    have e : (2 : ℚ) ^ (binaryExponent q + 1 - 54) =
        2 ^ binaryExponent q / 2 ^ (53 : ℕ) := by
      rw [show binaryExponent q + 1 - 54 = binaryExponent q - (53 : ℕ) by push_cast; ring,
        zpow_sub₀ (by norm_num : (2 : ℚ) ≠ 0), zpow_natCast]
    rw [e] at h1
    exact le_trans h1 (div_le_div_of_nonneg_right hs.1 (by positivity))

theorem roundDouble_sign (q : ℚ) :
    (0 < roundDouble q ↔ 0 < q) ∧ (roundDouble q < 0 ↔ q < 0)
    ∧ (roundDouble q = 0 ↔ q = 0) := by
  rcases lt_trichotomy q 0 with h | h | h
  · have hn := roundDouble_neg_of_neg q h
    refine ⟨⟨fun h1 => by linarith, fun h1 => by linarith⟩,
      ⟨fun _ => h, fun _ => hn⟩, ⟨fun h1 => by linarith, fun h1 => by linarith⟩⟩
  · rw [h, roundDouble_zero]
    simp
  · have hp := roundDouble_pos q h
    refine ⟨⟨fun _ => h, fun _ => hp⟩,
      ⟨fun h1 => by linarith, fun h1 => by linarith⟩,
      ⟨fun h1 => by linarith, fun h1 => by linarith⟩⟩

theorem quotient_error (x a b c v ε : ℚ) (hc : 0 < c) (hb : 0 < b)
    (hε0 : 0 ≤ ε) (hε : ε ≤ 1 / 5)
    (ha : |a - x| ≤ ε * |x|) (hbc : |b - c| ≤ ε * c)
    (hv : |v - a / b| ≤ ε * |a / b|) :
    |v - x / c| ≤ 4 * ε * |x / c| := by
  have hX : 0 ≤ |x| := abs_nonneg x
  have hb1 : c * (1 - ε) ≤ b := by
    have := (abs_le.mp hbc).1
    linarith
  have habs_a : |a| ≤ (1 + ε) * |x| := by
    have h1 : |a| ≤ |a - x| + |x| := by
      have := abs_add (a - x) x
      simpa using this
    linarith
  have h1 : |a / b - x / c| ≤ 2 * ε * |x| / b := by
    have e : a / b - x / c = ((a - x) * c - x * (b - c)) / (b * c) := by
      field_simp
      ring
    rw [e, abs_div, abs_of_pos (mul_pos hb hc), div_le_div_iff₀ (mul_pos hb hc) hb]
    have h2 : |(a - x) * c - x * (b - c)| ≤ |a - x| * c + |x| * |b - c| := by
      have := abs_sub ((a - x) * c) (x * (b - c))
      rw [abs_mul, abs_mul, abs_of_pos hc] at this
      exact this
    have h3 : |a - x| * c ≤ ε * |x| * c := mul_le_mul_of_nonneg_right ha hc.le
    have h4 : |x| * |b - c| ≤ |x| * (ε * c) := mul_le_mul_of_nonneg_left hbc hX
    have h5 : |(a - x) * c - x * (b - c)| ≤ 2 * ε * |x| * c := by linarith
    calc |(a - x) * c - x * (b - c)| * b ≤ 2 * ε * |x| * c * b :=
          mul_le_mul_of_nonneg_right h5 hb.le
      _ = 2 * ε * |x| * (b * c) := by ring
  have h6 : |a / b| ≤ (1 + ε) * |x| / b := by
    rw [abs_div, abs_of_pos hb]
    exact div_le_div_of_nonneg_right habs_a hb.le
  have h7 : |v - x / c| ≤ ε * ((1 + ε) * |x| / b) + 2 * ε * |x| / b := by
    have h8 : |v - x / c| ≤ |v - a / b| + |a / b - x / c| := by
      have := abs_add (v - a / b) (a / b - x / c)
      simpa using this
    have h9 : ε * |a / b| ≤ ε * ((1 + ε) * |x| / b) :=
      mul_le_mul_of_nonneg_left h6 hε0
    linarith
  have h10 : ε * ((1 + ε) * |x| / b) + 2 * ε * |x| / b = ε * (3 + ε) * |x| / b := by
    field_simp
    ring
  rw [h10] at h7
  have h11 : ε * (3 + ε) * |x| / b ≤ 4 * ε * |x / c| := by
    rw [abs_div, abs_of_pos hc, div_le_iff₀ hb]
    have e : 4 * ε * (|x| / c) * b = 4 * ε * |x| * (b / c) := by
      field_simp
    rw [e]
    have h12 : 1 - ε ≤ b / c := by
      rw [le_div_iff₀ hc]
      linarith
    have h13 : 0 ≤ ε * |x| := mul_nonneg hε0 hX
    nlinarith
  exact le_trans h7 h11

/-! ## Rotary encoders: theorems -/

/-- C1: with a stored previous reading `p` and a new reading `c` that is not
negative (in particular every `c` in `0..15`), each of the three encoder handlers takes its reverse action (delta `-1` for
the track knob, `loop_halve` for the loop knob, `beatjump_backward` or halving
of `beatjump_size` for the move knob) exactly when `(c + 1) mod 16 = p`, and
its forward action (delta `+1`, `loop_double`, `beatjump_forward` or doubling)
in every other case. -/
theorem encoder_handlers_direction (s : State) (field : Field) (pb pl pm : Int)
    (h0 : 0 ≤ field.value)
    (hb : s.browseKnobEncoderState (deckToGroup s field.group) = some pb)
    (hl : s.loopKnobEncoderState (deckToGroup s field.group) = some pl)
    (hm : s.moveKnobEncoderState (deckToGroup s field.group) = some pm) :
    (selectTrackHandler s field).calls = s.calls ++
      [if s.previewPressed field.group then
          Effect.setValue "[PreviewDeck1]" "playposition"
            (jsAdd (s.getValue "[PreviewDeck1]" "playposition")
              (some (if (field.value + 1) % 16 = pb then -(1 / 80) else 1 / 80)))
        else if s.shiftPressed field.group then
          Effect.setValue "[Library]" "MoveHorizontal"
            (some (if (field.value + 1) % 16 = pb then -1 else 1))
        else
          Effect.setValue "[Library]" "MoveVertical"
            (some (if (field.value + 1) % 16 = pb then -1 else 1))]
    ∧ (selectLoopHandler s field).calls = s.calls ++
      [Effect.triggerControl (deckToGroup s field.group).name
        (if (field.value + 1) % 16 = pl then "loop_halve" else "loop_double")]
    ∧ (selectBeatjumpHandler s field).calls = s.calls ++
      [if s.shiftPressed field.group then
          Effect.setValue (deckToGroup s field.group).name "beatjump_size"
            (if (field.value + 1) % 16 = pm then
              jsDiv (s.getValue (deckToGroup s field.group).name "beatjump_size") (some 2)
            else
              jsMul (s.getValue (deckToGroup s field.group).name "beatjump_size") (some 2))
        else
          Effect.triggerControl (deckToGroup s field.group).name
            (if (field.value + 1) % 16 = pm then "beatjump_backward"
              else "beatjump_forward")] := by
  refine ⟨?_, ?_, ?_⟩
  · simp only [selectTrackHandler, Group.name_ne_empty, if_false, hb,
      encoderDelta_some _ _ h0]
    by_cases hp : s.previewPressed field.group = true
    · by_cases hr : (field.value + 1) % 16 = pb <;>
        simp [hp, hr, State.setValue, State.getValue]
    · by_cases hs : s.shiftPressed field.group = true <;>
        by_cases hr : (field.value + 1) % 16 = pb <;>
        simp [hp, hs, hr, State.setValue]
  · simp only [selectLoopHandler, Group.name_ne_empty, if_false, hl,
      tmod_succ_sixteen _ h0]
    by_cases hr : (field.value + 1) % 16 = pl <;>
      simp [hr, State.triggerControl]
  · simp only [selectBeatjumpHandler, Group.name_ne_empty, if_false, hm,
      encoderDelta_some _ _ h0]
    by_cases hs : s.shiftPressed field.group = true <;>
      by_cases hr : (field.value + 1) % 16 = pm <;>
      simp [hs, hr, State.setValue, State.triggerControl, State.getValue]

/-- C1 at a concrete input: stored reading `5`, new reading `4` on the left
side; `(4 + 1) mod 16 = 5`, so the three handlers take the reverse action. -/
theorem encoder_handlers_direction_witness :
    (selectTrackHandler sampleState ⟨.deck1, 4⟩).calls =
      [Effect.setValue "[Library]" "MoveVertical" (some (-1))]
    ∧ (selectLoopHandler sampleState ⟨.deck1, 4⟩).calls =
      [Effect.triggerControl "[Channel1]" "loop_halve"]
    ∧ (selectBeatjumpHandler sampleState ⟨.deck1, 4⟩).calls =
      [Effect.triggerControl "[Channel1]" "beatjump_backward"] := by
  have h := encoder_handlers_direction sampleState ⟨.deck1, 4⟩ 5 5 5
    (by decide) rfl rfl rfl
  simpa [sampleState, deckToGroup, Group.name] using h

/-- C2, as stated, fails: it is not true that for all previous and current
readings in `[0, 16)` the decoded direction is `-1` exactly when
`current = (previous + 1) mod 16`.  At previous `5`, current `6` the code
decodes `+1`. -/
theorem encoderDelta_not_increment_rule :
    ¬ (∀ previous current : Int, 0 ≤ previous → previous < 16 →
        0 ≤ current → current < 16 →
        (encoderDelta current (some previous) = -1 ↔
          current = (previous + 1) % 16)) := by
  intro h
  have h56 := h 5 6 (by decide) (by decide) (by decide) (by decide)
  have hval : encoderDelta 6 (some 5) = 1 := by decide
  rw [hval] at h56
  exact absurd (h56.mpr (by decide)) (by decide)

/-- C2, amended: for all previous and current readings in `[0, 16)` the
decoded direction is `-1` exactly when `(current + 1) mod 16 = previous`, that
is when the reading went down by one step, and `+1` otherwise; previous `5`,
current `6` gives `+1`, previous `5`, current `4` gives `-1`, and previous
`15`, current `0` gives `+1`. -/
theorem encoderDelta_decrement_rule (previous current : Int)
    (hp0 : 0 ≤ previous) (hp : previous < 16)
    (hc0 : 0 ≤ current) (hc : current < 16) :
    (encoderDelta current (some previous) = -1 ↔ (current + 1) % 16 = previous)
    ∧ (encoderDelta current (some previous) = -1 ↔
        current = (previous + 15) % 16)
    ∧ (encoderDelta current (some previous) = 1 ↔ (current + 1) % 16 ≠ previous)
    ∧ encoderDelta 6 (some 5) = 1
    ∧ encoderDelta 4 (some 5) = -1
    ∧ encoderDelta 0 (some 15) = 1 := by
  rw [encoderDelta_some current previous hc0]
  refine ⟨?_, ?_, ?_, by decide, by decide, by decide⟩
  · by_cases h : (current + 1) % 16 = previous <;> simp [h]
  · by_cases h : (current + 1) % 16 = previous
    · simp only [h, if_true, true_iff]; omega
    · simp only [h, if_false]
      constructor
      · intro h1; exact absurd h1 (by decide)
      · intro h1; exact absurd (by omega) h
  · by_cases h : (current + 1) % 16 = previous <;> simp [h]

/-- C2 amended, at previous `5` and current `4`: the direction is `-1`. -/
theorem encoderDelta_decrement_rule_witness :
    encoderDelta 4 (some 5) = -1 :=
  (encoderDelta_decrement_rule 5 4 (by decide) (by decide) (by decide)
    (by decide)).1.mpr (by decide)

/-- C3: after `selectTrackHandler`, `selectLoopHandler` or
`selectBeatjumpHandler` has processed a reading for the active group `g`, the
table of that knob holds the reading at `g`, holds what it held before at
every other group, and the tables of the other two knobs are unchanged. -/
theorem encoder_handlers_store (s : State) (field : Field) :
    ((selectTrackHandler s field).browseKnobEncoderState
          (deckToGroup s field.group) = some field.value
      ∧ (∀ g, g ≠ deckToGroup s field.group →
          (selectTrackHandler s field).browseKnobEncoderState g =
            s.browseKnobEncoderState g)
      ∧ (selectTrackHandler s field).loopKnobEncoderState = s.loopKnobEncoderState
      ∧ (selectTrackHandler s field).moveKnobEncoderState = s.moveKnobEncoderState)
    ∧ ((selectLoopHandler s field).loopKnobEncoderState
          (deckToGroup s field.group) = some field.value
      ∧ (∀ g, g ≠ deckToGroup s field.group →
          (selectLoopHandler s field).loopKnobEncoderState g =
            s.loopKnobEncoderState g)
      ∧ (selectLoopHandler s field).browseKnobEncoderState =
          s.browseKnobEncoderState
      ∧ (selectLoopHandler s field).moveKnobEncoderState = s.moveKnobEncoderState)
    ∧ ((selectBeatjumpHandler s field).moveKnobEncoderState
          (deckToGroup s field.group) = some field.value
      ∧ (∀ g, g ≠ deckToGroup s field.group →
          (selectBeatjumpHandler s field).moveKnobEncoderState g =
            s.moveKnobEncoderState g)
      ∧ (selectBeatjumpHandler s field).browseKnobEncoderState =
          s.browseKnobEncoderState
      ∧ (selectBeatjumpHandler s field).loopKnobEncoderState =
          s.loopKnobEncoderState) := by
  refine ⟨?_, ?_, ?_⟩
  · simp only [selectTrackHandler, Group.name_ne_empty, if_false]
    split_ifs <;>
      simp +contextual [State.setValue, Function.update]
  · simp only [selectLoopHandler, Group.name_ne_empty, if_false]
    split_ifs <;>
      simp +contextual [State.triggerControl, Function.update]
  · simp only [selectBeatjumpHandler, Group.name_ne_empty, if_false]
    split_ifs <;>
      simp +contextual
        [State.setValue, State.triggerControl, Function.update]

/-! ## Jog wheel: auxiliary facts -/

theorem sample_split (tickVal timeVal : Int)
    (ht0 : 0 ≤ tickVal) (ht : tickVal ≤ 255)
    (hT0 : 0 ≤ timeVal) (hT : timeVal < 16777216) :
    ((timeVal * 256 + tickVal) % 4294967296) % 256 = tickVal
    ∧ ((timeVal * 256 + tickVal) % 4294967296) / 256 = timeVal := by
  constructor <;> omega

theorem wheelDeltas_tickDelta (s : State) (d : DeckArg) (value prevTick : Int)
    (hp : s.lastTickVal d.minusOne = some prevTick) :
    (wheelDeltas s d value).tickDelta = some
      (if 200 ≤ prevTick ∧ (value % 4294967296) % 256 ≤ 100 then
        (value % 4294967296) % 256 + 256 - prevTick
      else if prevTick ≤ 100 ∧ 200 ≤ (value % 4294967296) % 256 then
        (value % 4294967296) % 256 - prevTick - 256
      else (value % 4294967296) % 256 - prevTick) := by
  simp only [wheelDeltas, hp, geInt, leInt, intSub, Option.map]
  by_cases h1 : 200 ≤ prevTick ∧ (value % 4294967296) % 256 ≤ 100
  · simp [h1]
  · by_cases h2 : prevTick ≤ 100 ∧ 200 ≤ (value % 4294967296) % 256
    · simp [h1, h2]
    · simp [h1, h2]

theorem wheelDeltas_timeDelta (s : State) (d : DeckArg) (value prevTime : Int)
    (hp : s.lastTickTime d.minusOne = some prevTime) :
    (wheelDeltas s d value).timeDelta = some
      (if (if (value % 4294967296) / 256 < prevTime then
              (value % 4294967296) / 256 + 1048576
            else (value % 4294967296) / 256) - prevTime = 0 then 1
        else (if (value % 4294967296) / 256 < prevTime then
              (value % 4294967296) / 256 + 1048576
            else (value % 4294967296) / 256) - prevTime) := by
  simp only [wheelDeltas, hp, gtInt, intSub]
  by_cases h1 : (value % 4294967296) / 256 < prevTime
  · by_cases h2 : (value % 4294967296) / 256 + 1048576 - prevTime = 0 <;>
      simp [h1, h2]
  · by_cases h2 : (value % 4294967296) / 256 - prevTime = 0 <;>
      simp [h1, h2]

theorem wheelDeltas_timeDelta_ne_zero (s : State) (d : DeckArg) (value : Int) :
    (wheelDeltas s d value).timeDelta ≠ some 0 := by
  simp only [wheelDeltas]
  split_ifs with h1 h2 <;> simp_all

/-! ## Jog wheel: theorems -/

/-- C4: for a stored previous tick `prevTick` (any stored number, in particular
one in `0..255`) and a sample tick `tickVal` in `0..255`, `wheelDeltas` returns `tickVal + 256 - prevTick` if
`prevTick >= 200` and `tickVal <= 100`, `tickVal - prevTick - 256` if
`prevTick <= 100` and `tickVal >= 200`, and `tickVal - prevTick` otherwise;
`250 -> 10` gives `16`, `5 -> 240` gives `-21` and `100 -> 120` gives `20`. -/
theorem wheelDeltas_tickDelta_rule (s : State) (d : DeckArg)
    (prevTick tickVal timeVal : Int)
    (ht0 : 0 ≤ tickVal) (ht : tickVal ≤ 255)
    (hT0 : 0 ≤ timeVal) (hT : timeVal < 16777216)
    (hs : s.lastTickVal d.minusOne = some prevTick) :
    (wheelDeltas s d (timeVal * 256 + tickVal)).tickDelta = some
      (if 200 ≤ prevTick ∧ tickVal ≤ 100 then tickVal + 256 - prevTick
        else if prevTick ≤ 100 ∧ 200 ≤ tickVal then tickVal - prevTick - 256
        else tickVal - prevTick)
    ∧ (wheelDeltas { s with lastTickVal := fun _ => some 250 } d
        (timeVal * 256 + 10)).tickDelta = some 16
    ∧ (wheelDeltas { s with lastTickVal := fun _ => some 5 } d
        (timeVal * 256 + 240)).tickDelta = some (-21)
    ∧ (wheelDeltas { s with lastTickVal := fun _ => some 100 } d
        (timeVal * 256 + 120)).tickDelta = some 20 := by
  refine ⟨?_, ?_, ?_, ?_⟩
  · rw [wheelDeltas_tickDelta s d _ prevTick hs,
      (sample_split tickVal timeVal ht0 ht hT0 hT).1]
  · rw [wheelDeltas_tickDelta _ d _ 250 rfl,
      (sample_split 10 timeVal (by decide) (by decide) hT0 hT).1]
    rfl
  · rw [wheelDeltas_tickDelta _ d _ 5 rfl,
      (sample_split 240 timeVal (by decide) (by decide) hT0 hT).1]
    rfl
  · rw [wheelDeltas_tickDelta _ d _ 100 rfl,
      (sample_split 120 timeVal (by decide) (by decide) hT0 hT).1]
    rfl

/-- C4 at a concrete input: stored tick `250`, sample tick `10` at time `501`
on deck `1` gives a tick delta of `16`. -/
theorem wheelDeltas_tickDelta_rule_witness :
    (wheelDeltas sampleState (.number 1) (501 * 256 + 10)).tickDelta =
      some 16 :=
  (wheelDeltas_tickDelta_rule sampleState (.number 1) 250 10 501
    (by decide) (by decide) (by decide) (by decide) rfl).1

/-- C5 fails on the code: after the sample `0xFFFFFF00` (time `0xFFFFFF`, tick
`0`) on deck `1`, the sample `0` (time `0`, tick `0`) makes `wheelDeltas`
return the time delta `0x100000 - 0xFFFFFF = -15728639`, which is neither
`max(1, u - prevTime)` nor positive. -/
theorem wheelDeltas_timeDelta_negative (controls : String → String → JsNum) :
    (wheelDeltas (wheelDeltas (initialState controls) (.number 1) 4294967040).state
        (.number 1) 0).timeDelta = some (-15728639)
    ∧ (wheelDeltas (initialState controls) (.number 1) 4294967040).state.lastTickTime
        (DeckArg.number 1).minusOne = some 16777215
    ∧ (-15728639 : Int) ≠ max 1 ((0 + 1048576) - 16777215) := by
  refine ⟨?_, ?_, by decide⟩
  · rw [wheelDeltas_timeDelta _ _ _ 16777215 (by simp [wheelDeltas, Function.update])]
    decide
  · simp [wheelDeltas, Function.update]

/-- C6: `wheelDeltas` never returns the time delta `0`, whatever the stored
state and the sample; when the sample time, unwrapped by `0x100000` if the
stored time is greater, equals the stored time, the time delta is exactly `1`
(stored time `500`, sample time `500` gives `1`); hence the divisor of
`tickDelta / timeDelta` in `jogHandler` is never zero. -/
theorem wheelDeltas_timeDelta_never_zero (s : State) (d : DeckArg) (value : Int) :
    (wheelDeltas s d value).timeDelta ≠ some 0
    ∧ (∀ prevTime : Int, s.lastTickTime d.minusOne = some prevTime →
        (if (value % 4294967296) / 256 < prevTime then
            (value % 4294967296) / 256 + 1048576
          else (value % 4294967296) / 256) = prevTime →
        (wheelDeltas s d value).timeDelta = some 1)
    ∧ (wheelDeltas { s with lastTickTime := fun _ => some 500 } d
        (500 * 256 + value % 256)).timeDelta = some 1
    ∧ (∀ g : Group,
        toNum (wheelDeltas
          { s with tickReceived := Function.update s.tickReceived g true }
          (.group g) value).timeDelta ≠ some 0) := by
  refine ⟨wheelDeltas_timeDelta_ne_zero s d value, ?_, ?_, ?_⟩
  · intro prevTime hp hu
    rw [wheelDeltas_timeDelta s d value prevTime hp, hu]
    simp
  · rw [wheelDeltas_timeDelta _ d _ 500 rfl]
    have h : ((500 * 256 + value % 256) % 4294967296) / 256 = 500 := by omega
    rw [h]
    rfl
  · intro g
    have h := wheelDeltas_timeDelta_ne_zero
      { s with tickReceived := Function.update s.tickReceived g true }
      (.group g) value
    cases hd : (wheelDeltas
      { s with tickReceived := Function.update s.tickReceived g true }
      (.group g) value).timeDelta with
    | none => simp [toNum]
    | some n =>
      rw [hd] at h
      have hn : n ≠ 0 := fun h0 => h (by rw [h0])
      simp only [toNum, ne_eq, Option.some.injEq]
      exact_mod_cast hn

/-- C6 at a concrete input: stored time `500`, sample time `500` on deck `1`
gives the time delta `1`. -/
theorem wheelDeltas_timeDelta_never_zero_witness :
    (wheelDeltas sampleState (.number 1) (500 * 256 + 10)).timeDelta = some 1 :=
  (wheelDeltas_timeDelta_never_zero sampleState (.number 1) (500 * 256 + 10)).2.1
    500 rfl (by decide)

/-- C7: for every unsigned 32-bit sample `v` and deck number `d` (in particular
`1` and `2`), after `wheelDeltas(d, v)` the entry `lastTickVal[d-1]` is `v mod 256` and the
entry `lastTickTime[d-1]` is `v div 256`, the raw values of the sample (the
stored time is the raw one also when the time used for the delta was
unwrapped by `0x100000`), so that `v` is the stored time times `256` plus
the stored tick. -/
theorem wheelDeltas_stores_raw (s : State) (d v : Int)
    (hv0 : 0 ≤ v) (hv : v < 4294967296) :
    (wheelDeltas s (.number d) v).state.lastTickVal (.index (d - 1)) =
        some (v % 256)
    ∧ (wheelDeltas s (.number d) v).state.lastTickTime (.index (d - 1)) =
        some (v / 256)
    ∧ v = v / 256 * 256 + v % 256
    ∧ 0 ≤ v % 256 ∧ v % 256 < 256 ∧ 0 ≤ v / 256 ∧ v / 256 < 16777216 := by
  have h32 : v % 4294967296 = v := Int.emod_eq_of_lt hv0 hv
  refine ⟨?_, ?_, by omega, by omega, by omega, by omega, by omega⟩
  · simp [wheelDeltas, DeckArg.minusOne, h32]
  · simp [wheelDeltas, DeckArg.minusOne, h32]

/-- C7 at a concrete input: stored time `500`, the sample of time `3` and tick
`7` on deck `2` (a sample whose time is unwrapped for the delta) leaves tick
`7` and time `3` stored. -/
theorem wheelDeltas_stores_raw_witness :
    (wheelDeltas sampleState (.number 2) 775).state.lastTickVal (.index 1) = some 7
    ∧ (wheelDeltas sampleState (.number 2) 775).state.lastTickTime (.index 1) =
        some 3 :=
  ⟨(wheelDeltas_stores_raw sampleState 2 775 (by decide) (by decide)).1,
   (wheelDeltas_stores_raw sampleState 2 775 (by decide) (by decide)).2.1⟩

/-- C8: for every stored tick `prevTick` in `0..255`, the sample tick
`(prevTick + 1) mod 256` gives the tick delta `+1` and the sample tick
`(prevTick - 1) mod 256` gives `-1`, across `255 -> 0` and `0 -> 255` too:
a single step is never reported as a jump of a whole revolution. -/
theorem wheelDeltas_single_step (s : State) (d : DeckArg) (prevTick timeVal : Int)
    (hp0 : 0 ≤ prevTick) (hp : prevTick ≤ 255)
    (hT0 : 0 ≤ timeVal) (hT : timeVal < 16777216)
    (hs : s.lastTickVal d.minusOne = some prevTick) :
    (wheelDeltas s d (timeVal * 256 + (prevTick + 1) % 256)).tickDelta = some 1
    ∧ (wheelDeltas s d (timeVal * 256 + (prevTick - 1) % 256)).tickDelta =
        some (-1) := by
  constructor
  · rw [wheelDeltas_tickDelta s d _ prevTick hs,
      (sample_split ((prevTick + 1) % 256) timeVal (by omega) (by omega) hT0 hT).1]
    congr 1
    split_ifs <;> omega
  · rw [wheelDeltas_tickDelta s d _ prevTick hs,
      (sample_split ((prevTick - 1) % 256) timeVal (by omega) (by omega) hT0 hT).1]
    congr 1
    split_ifs <;> omega

/-- C8 at a concrete input: stored tick `255` on deck `1`; the sample tick `0`
gives `+1` and the sample tick `254` gives `-1`. -/
theorem wheelDeltas_single_step_witness :
    (wheelDeltas { sampleState with lastTickVal := fun _ => some 255 }
        (.number 1) (501 * 256 + (255 + 1) % 256)).tickDelta = some 1
    ∧ (wheelDeltas { sampleState with lastTickVal := fun _ => some 255 }
        (.number 1) (501 * 256 + (255 - 1) % 256)).tickDelta = some (-1) :=
  wheelDeltas_single_step { sampleState with lastTickVal := fun _ => some 255 }
    (.number 1) 255 501 (by decide) (by decide) (by decide) (by decide) rfl

/-! ## Jog velocity: theorems -/

theorem thirtyThree_pos : 0 < thirtyThree :=
  roundDouble_pos _ (by norm_num)

theorem jogVelocity_some (tickDelta timeDelta : Int) (ht : timeDelta ≠ 0) :
    jogVelocity (some tickDelta) (some timeDelta) =
      some (roundDouble (roundDouble ((tickDelta : ℚ) / timeDelta) / thirtyThree)) := by
  have hq : (timeDelta : ℚ) ≠ 0 := by exact_mod_cast ht
  have h33 : thirtyThree ≠ 0 := thirtyThree_pos.ne'
  simp [jogVelocity, jsDivRounded, toNum, jsDiv, hq, h33]

theorem sign_of_cases (v : ℚ) (t : ℤ) (hp : 0 < t → 0 < v) (hz : t = 0 → v = 0)
    (hn : t < 0 → v < 0) :
    (0 < v ↔ 0 < t) ∧ (v < 0 ↔ t < 0) ∧ (v = 0 ↔ t = 0) := by
  rcases lt_trichotomy t 0 with h | h | h
  · have h1 := hn h
    exact ⟨⟨fun h2 => by linarith, fun h2 => by omega⟩, ⟨fun _ => h, fun _ => h1⟩,
      ⟨fun h2 => by linarith, fun h2 => by omega⟩⟩
  · have h1 := hz h
    exact ⟨⟨fun h2 => by linarith, fun h2 => by omega⟩,
      ⟨fun h2 => by linarith, fun h2 => by omega⟩, ⟨fun _ => h, fun _ => h1⟩⟩
  · have h1 := hp h
    exact ⟨⟨fun _ => h, fun _ => h1⟩, ⟨fun h2 => by linarith, fun h2 => by omega⟩,
      ⟨fun h2 => by linarith, fun h2 => by omega⟩⟩

/-- C9, as stated, fails: for one tick in three time units the exact quotient
`(1 / 3) / (768 / 720000)` is `625 / 2 = 312.5`, but `jogHandler` rounds each
of its three divisions to the nearest double and computes
`5497558138879999 / 2 ^ 44 = 312.49999999999994...`. -/
theorem jogVelocity_not_exact_quotient :
    jogVelocity (some 1) (some 3) = some (5497558138879999 / 17592186044416)
    ∧ ((1 : ℚ) / 3) / (768 / 720000) = 625 / 2
    ∧ jogVelocity (some 1) (some 3) ≠ some (625 / 2) := by
  decide!

/-- C9, amended: for tick and time deltas that are doubles (integers below
`2 ^ 53` in magnitude, stored exactly) and a nonzero time delta, the velocity
of `jogHandler` is the quotient `(tickDelta / timeDelta) / (768 / 720000)`
with each of the three divisions rounded to the nearest double; it differs
from the exact value `tickDelta * 720000 / (768 * timeDelta)` by at most that
value times `2 ^ -51`; and a wheel that turns at the reference rate of 768
ticks per 720000 time units has velocity exactly `1`. -/
theorem jogVelocity_rounded_quotient (tickDelta timeDelta : Int)
    (ht : timeDelta ≠ 0) (hr1 : |tickDelta| < 2 ^ 53) (hr2 : |timeDelta| < 2 ^ 53) :
    roundDouble (tickDelta : ℚ) = tickDelta
    ∧ roundDouble (timeDelta : ℚ) = timeDelta
    ∧ jogVelocity (some tickDelta) (some timeDelta) =
        some (roundDouble (roundDouble ((tickDelta : ℚ) / timeDelta)
          / roundDouble (768 / 720000)))
    ∧ |roundDouble (roundDouble ((tickDelta : ℚ) / timeDelta)
          / roundDouble (768 / 720000))
        - (tickDelta : ℚ) * 720000 / (768 * timeDelta)|
        ≤ |(tickDelta : ℚ) * 720000 / (768 * timeDelta)| / 2 ^ 51
    ∧ (tickDelta * 720000 = 768 * timeDelta →
        jogVelocity (some tickDelta) (some timeDelta) = some 1)
    ∧ jogVelocity (some 768) (some 720000) = some 1 := by
  have hq : (timeDelta : ℚ) ≠ 0 := by exact_mod_cast ht
  have hone : roundDouble 1 = 1 := by
    have h := roundDouble_int 1 (by norm_num)
    simpa using h
  have href : ∀ a b : Int, b ≠ 0 → a * 720000 = 768 * b →
      jogVelocity (some a) (some b) = some 1 := by
    intro a b hb hab
    have hbq : (b : ℚ) ≠ 0 := by exact_mod_cast hb
    have hc : (a : ℚ) * 720000 = 768 * b := by exact_mod_cast hab
    have hx : (a : ℚ) / b = 768 / 720000 := by
      rw [div_eq_div_iff hbq (by norm_num)]
      exact hc
    rw [jogVelocity_some a b hb, hx]
    have h33 : roundDouble (768 / 720000) ≠ 0 := thirtyThree_pos.ne'
    rw [thirtyThree, div_self h33, hone]
  refine ⟨?_, ?_, jogVelocity_some tickDelta timeDelta ht, ?_,
    href tickDelta timeDelta ht, href 768 720000 (by decide) (by decide)⟩
  · apply roundDouble_int
    rw [← Int.cast_abs]
    exact_mod_cast hr1
  · apply roundDouble_int
    rw [← Int.cast_abs]
    exact_mod_cast hr2
  · have hc : (0 : ℚ) < 768 / 720000 := by norm_num
    have h1 := roundDouble_rel_error ((tickDelta : ℚ) / timeDelta)
    have h2 := roundDouble_rel_error (768 / 720000)
    have h3 := roundDouble_rel_error
      (roundDouble ((tickDelta : ℚ) / timeDelta) / roundDouble (768 / 720000))
    rw [abs_of_pos hc] at h2
    have h := quotient_error ((tickDelta : ℚ) / timeDelta)
      (roundDouble ((tickDelta : ℚ) / timeDelta)) (roundDouble (768 / 720000))
      (768 / 720000)
      (roundDouble (roundDouble ((tickDelta : ℚ) / timeDelta)
        / roundDouble (768 / 720000)))
      (1 / 2 ^ 53) hc thirtyThree_pos (by positivity) (by norm_num)
      (by rw [one_div_mul_eq_div]; exact h1)
      (by rw [one_div_mul_eq_div]; exact h2)
      (by rw [one_div_mul_eq_div]; exact h3)
    have e : (tickDelta : ℚ) * 720000 / (768 * timeDelta) =
        (tickDelta : ℚ) / timeDelta / (768 / 720000) := by
      field_simp
      exact Or.inl (mul_comm _ _)
    rw [e]
    calc _ ≤ 4 * (1 / 2 ^ 53) * |(tickDelta : ℚ) / timeDelta / (768 / 720000)| := h
      _ = |(tickDelta : ℚ) / timeDelta / (768 / 720000)| / 2 ^ 51 := by ring

/-- C9 amended, at a concrete input: 16 ticks in 15000 time units is the
reference rate, and the velocity is `1`. -/
theorem jogVelocity_rounded_quotient_witness :
    jogVelocity (some 16) (some 15000) = some 1 :=
  (jogVelocity_rounded_quotient 16 15000 (by decide) (by decide) (by decide)).2.2.2.2.1
    (by decide)

/-- C10: for every sample with a positive time delta, the velocity of
`jogHandler` has the sign of the tick delta (positive, negative or zero
exactly when the tick delta is), and so have the values written to `jog`,
`velocity / 4` while playing and `velocity * 2` while stopped. -/
theorem jogVelocity_sign (tickDelta timeDelta : Int) (ht : 0 < timeDelta) :
    ∃ v : ℚ, jogVelocity (some tickDelta) (some timeDelta) = some v
      ∧ (0 < v ↔ 0 < tickDelta) ∧ (v < 0 ↔ tickDelta < 0) ∧ (v = 0 ↔ tickDelta = 0)
      ∧ jogNudge true (some v) = some (v / 4)
      ∧ (0 < v / 4 ↔ 0 < tickDelta) ∧ (v / 4 < 0 ↔ tickDelta < 0)
      ∧ (v / 4 = 0 ↔ tickDelta = 0)
      ∧ jogNudge false (some v) = some (v * 2)
      ∧ (0 < v * 2 ↔ 0 < tickDelta) ∧ (v * 2 < 0 ↔ tickDelta < 0)
      ∧ (v * 2 = 0 ↔ tickDelta = 0) := by
  have hq : (0 : ℚ) < timeDelta := by exact_mod_cast ht
  have h33 := thirtyThree_pos
  have hp : 0 < tickDelta →
      0 < roundDouble (roundDouble ((tickDelta : ℚ) / timeDelta) / thirtyThree) := by
    intro h
    have h0 : (0 : ℚ) < tickDelta := by exact_mod_cast h
    exact roundDouble_pos _ (div_pos (roundDouble_pos _ (div_pos h0 hq)) h33)
  have hz : tickDelta = 0 →
      roundDouble (roundDouble ((tickDelta : ℚ) / timeDelta) / thirtyThree) = 0 := by
    intro h
    rw [h]
    simp [roundDouble_zero]
  have hn : tickDelta < 0 →
      roundDouble (roundDouble ((tickDelta : ℚ) / timeDelta) / thirtyThree) < 0 := by
    intro h
    have h0 : (tickDelta : ℚ) < 0 := by exact_mod_cast h
    exact roundDouble_neg_of_neg _
      (div_neg_of_neg_of_pos (roundDouble_neg_of_neg _ (div_neg_of_neg_of_pos h0 hq)) h33)
  refine ⟨roundDouble (roundDouble ((tickDelta : ℚ) / timeDelta) / thirtyThree),
    jogVelocity_some tickDelta timeDelta ht.ne', ?_⟩
  have h1 := sign_of_cases _ tickDelta hp hz hn
  have h4 := sign_of_cases
    (roundDouble (roundDouble ((tickDelta : ℚ) / timeDelta) / thirtyThree) / 4) tickDelta
    (fun h => div_pos (hp h) (by norm_num)) (fun h => by rw [hz h]; norm_num)
    (fun h => div_neg_of_neg_of_pos (hn h) (by norm_num))
  have h2 := sign_of_cases
    (roundDouble (roundDouble ((tickDelta : ℚ) / timeDelta) / thirtyThree) * 2) tickDelta
    (fun h => mul_pos (hp h) (by norm_num)) (fun h => by rw [hz h]; norm_num)
    (fun h => mul_neg_of_neg_of_pos (hn h) (by norm_num))
  refine ⟨h1.1, h1.2.1, h1.2.2, ?_, h4.1, h4.2.1, h4.2.2, ?_, h2.1, h2.2.1, h2.2.2⟩
  · simp [jogNudge, jsDiv]
  · simp [jogNudge, jsMul]

/-- C10 at a concrete input: a tick delta of `-21` over `1500` time units
gives a velocity whose sign is that of `-21`. -/
theorem jogVelocity_sign_witness :
    ∃ v : ℚ, jogVelocity (some (-21)) (some 1500) = some v ∧ v < 0
      ∧ v / 4 < 0 ∧ v * 2 < 0 := by
  obtain ⟨v, hv, _, hneg, _, _, _, hneg4, _, _, _, hneg2, _⟩ :=
    jogVelocity_sign (-21) 1500 (by decide)
  exact ⟨v, hv, hneg.mpr (by decide), hneg4.mpr (by decide), hneg2.mpr (by decide)⟩

/-! ## Jog routing and tick tables: theorems -/

theorem Group.name_injective (g h : Group) (e : g.name = h.name) : g = h := by
  cases g <;> cases h <;> first | rfl | (exact absurd e (by decide))

theorem jogHandler_eq (s : State) (field : Field) :
    jogHandler s field =
      if truthy (s.getValue (deckToGroup s field.group).name "scratch2_enable") then
        (wheelDeltas
          { s with tickReceived :=
              Function.update s.tickReceived (deckToGroup s field.group) true }
          (.group (deckToGroup s field.group)) field.value).state.setValue
          (deckToGroup s field.group).name "scratch2" (jogSampleVelocity s field)
      else
        (wheelDeltas
          { s with tickReceived :=
              Function.update s.tickReceived (deckToGroup s field.group) true }
          (.group (deckToGroup s field.group)) field.value).state.setValue
          (deckToGroup s field.group).name "jog"
          (jogNudge (truthy (s.getValue (deckToGroup s field.group).name "play"))
            (jogSampleVelocity s field)) := by
  simp only [jogHandler, Group.name_ne_empty, if_false, jogSampleVelocity]
  rfl

/-- C11: for a jog sample with computed velocity `v` on the active group: if
`scratch2_enable` of the group is set, `jogHandler` writes `scratch2 = v` and
nothing else; otherwise it writes `jog = v / 4` when `play` is set and
`jog = v * 2` when it is not, and nothing else. -/
theorem jogHandler_routing (s : State) (field : Field) :
    (jogHandler s field).calls = s.calls ++
      [if truthy (s.getValue (deckToGroup s field.group).name "scratch2_enable") then
          Effect.setValue (deckToGroup s field.group).name "scratch2"
            (jogSampleVelocity s field)
        else if truthy (s.getValue (deckToGroup s field.group).name "play") then
          Effect.setValue (deckToGroup s field.group).name "jog"
            (jsDiv (jogSampleVelocity s field) (some 4))
        else
          Effect.setValue (deckToGroup s field.group).name "jog"
            (jsMul (jogSampleVelocity s field) (some 2))]
    ∧ (∀ v : ℚ, jsDiv (some v) (some 4) = some (v / 4)
        ∧ jsMul (some v) (some 2) = some (2 * v)) := by
  constructor
  · rw [jogHandler_eq]
    by_cases h1 : truthy (s.getValue (deckToGroup s field.group).name
        "scratch2_enable") = true
    · simp [h1, State.setValue, wheelDeltas]
    · by_cases h2 : truthy (s.getValue (deckToGroup s field.group).name "play") = true
      · simp [h1, h2, State.setValue, wheelDeltas, jogNudge]
      · simp [h1, h2, State.setValue, wheelDeltas, jogNudge]
  · intro v
    constructor
    · simp [jsDiv]
    · simp [jsMul, mul_comm]

/-- C12 fails on the code: `jogHandler` hands the group name to `wheelDeltas`,
so the key `deckNumber - 1` is `NaN` for both wheels.  A sample of the left
wheel overwrites the entry that the right wheel reads, the entries `0` and
`1` are never used, and the deltas of a right-wheel sample depend on the
left-wheel sample before it: tick `20` gives `26` against the stored tick
`250`, but `10` once the left wheel has reported tick `10`. -/
theorem jogHandler_wheels_share_entry (s : State) (v : Int) :
    (jogHandler s ⟨.deck1, v⟩).lastTickVal
        (DeckArg.group (deckToGroup (jogHandler s ⟨.deck1, v⟩) .deck2)).minusOne =
      some (v % 4294967296 % 256)
    ∧ (jogHandler s ⟨.deck1, v⟩).lastTickTime
        (DeckArg.group (deckToGroup (jogHandler s ⟨.deck1, v⟩) .deck2)).minusOne =
      some (v % 4294967296 / 256)
    ∧ (jogHandler s ⟨.deck1, v⟩).lastTickVal (.index 0) = s.lastTickVal (.index 0)
    ∧ (jogHandler s ⟨.deck1, v⟩).lastTickVal (.index 1) = s.lastTickVal (.index 1)
    ∧ (wheelDeltas sampleState (.group .channel2) (502 * 256 + 20)).tickDelta =
        some 26
    ∧ (wheelDeltas (jogHandler sampleState ⟨.deck1, 501 * 256 + 10⟩)
        (.group .channel2) (502 * 256 + 20)).tickDelta = some 10 := by
  refine ⟨?_, ?_, ?_, ?_, ?_, ?_⟩
  · rw [jogHandler_eq]
    split_ifs <;> simp [State.setValue, wheelDeltas, DeckArg.minusOne]
  · rw [jogHandler_eq]
    split_ifs <;> simp [State.setValue, wheelDeltas, DeckArg.minusOne]
  · rw [jogHandler_eq]
    split_ifs <;> simp [State.setValue, wheelDeltas, DeckArg.minusOne]
  · rw [jogHandler_eq]
    split_ifs <;> simp [State.setValue, wheelDeltas, DeckArg.minusOne]
  · rw [wheelDeltas_tickDelta _ _ _ 250 rfl]
    decide
  · rw [wheelDeltas_tickDelta _ _ _ 10
      (by rw [jogHandler_eq]
          split_ifs <;> simp [State.setValue, wheelDeltas, DeckArg.minusOne])]
    decide

/-! ## The inertia time as a real number -/

theorem rpow_rat_pow_den (r : ℚ) (h : 0 ≤ r) :
    ((1.8 : ℝ) ^ (r : ℝ)) ^ r.den = (1.8 : ℝ) ^ r.num.toNat := by
  have hb : (r.den : ℝ) ≠ 0 := by exact_mod_cast r.den_nz
  have hnum : 0 ≤ r.num := Rat.num_nonneg.mpr h
  have hr : (r : ℝ) * (r.den : ℝ) = (r.num.toNat : ℝ) := by
    have h1 : (r : ℝ) = (r.num : ℝ) / (r.den : ℝ) := by
      rw [Rat.cast_def]
    have h2 : ((r.num.toNat : ℤ) : ℝ) = (r.num : ℝ) := by
      rw [Int.toNat_of_nonneg hnum]
    rw [h1, div_mul_cancel₀ _ hb, ← h2]
    norm_cast
  rw [← Real.rpow_natCast, ← Real.rpow_mul (by norm_num), hr, Real.rpow_natCast]

/-- The exact test of `inertiaBelowHundred` is the comparison
`1.8 ^ scratchRate * 2 < 100` of real numbers. -/
theorem inertiaBelowHundred_iff (r : ℚ) :
    inertiaBelowHundred (some r) = true ↔ (1.8 : ℝ) ^ (r : ℝ) * 2 < 100 := by
  simp only [inertiaBelowHundred, decide_eq_true_eq]
  rcases lt_or_le r 0 with hneg | hpos
  · have hnum : r.num < 0 := Rat.num_neg.mpr hneg
    have ht : r.num.toNat = 0 := by omega
    have h1 : (1.8 : ℝ) ^ (r : ℝ) ≤ 1 :=
      Real.rpow_le_one_of_one_le_of_nonpos (by norm_num) (by exact_mod_cast hneg.le)
    have h2 : 1 < 50 ^ r.den := Nat.one_lt_pow r.den_nz (by norm_num)
    rw [ht]
    constructor
    · intro _; linarith
    · intro _
      rw [pow_zero, pow_zero, mul_one]
      exact h2
  · have hx : 0 ≤ (1.8 : ℝ) ^ (r : ℝ) := Real.rpow_nonneg (by norm_num) _
    have hpow := rpow_rat_pow_den r hpos
    have e1 : (1.8 : ℝ) ^ (r : ℝ) * 2 < 100 ↔ (1.8 : ℝ) ^ (r : ℝ) < 50 := by
      constructor <;> intro h <;> linarith
    have e2 : (1.8 : ℝ) ^ (r : ℝ) < 50 ↔
        ((1.8 : ℝ) ^ (r : ℝ)) ^ r.den < 50 ^ r.den :=
      (pow_lt_pow_iff_left₀ hx (by norm_num) r.den_nz).symm
    rw [e1, e2, hpow]
    have e3 : (1.8 : ℝ) ^ r.num.toNat = 9 ^ r.num.toNat / 5 ^ r.num.toNat := by
      rw [← div_pow]; norm_num
    rw [e3, div_lt_iff₀ (by positivity)]
    norm_cast

theorem inertiaBelowHundred_zero : inertiaBelowHundred (jsAbs (some 0)) = true := by
  simp [jsAbs, inertiaBelowHundred]

/-! ## Tick flag and inertia time: theorems -/

/-- C19: the flag `tickReceived[group]` is false after every run of
`finishJogTouch(group)`, whichever branch it takes (also when the run is the
callback of a timer), and true for the active group after every jog sample
that `jogHandler` processes. -/
theorem tickReceived_cleared_and_set (s : State) (group : Group) (field : Field) :
    (finishJogTouch s group).tickReceived group = false
    ∧ (∀ t : Timer, (fireTimer
          { s with timers := t :: s.timers } t.handle).tickReceived t.callback = false)
    ∧ (jogHandler s field).tickReceived (deckToGroup s field.group) = true := by
  have hfin : ∀ (u : State) (g : Group), (finishJogTouch u g).tickReceived g = false := by
    intro u g
    simp [finishJogTouch]
  refine ⟨hfin s group, ?_, ?_⟩
  · intro t
    simp only [fireTimer, List.find?_cons, decide_True]
    exact hfin _ _
  · rw [jogHandler_eq]
    split_ifs <;> simp [State.setValue, wheelDeltas]

/-- C20: the inertia time `1.8 ^ |r| * 2` of the rate `r` read at touch-up
grows with the speed: `|r1| <= |r2|` gives `inertiaTime r1 <= inertiaTime r2`;
it depends on `|r|` only, so `r` and `-r` have the same inertia time; and the
inertia time of the rate `0` is `2`. -/
theorem inertiaTime_monotone (r1 r2 : ℚ) (t1 t2 : ℝ)
    (h1 : (inertiaTime (some r1)).Denotes t1)
    (h2 : (inertiaTime (some r2)).Denotes t2) :
    (|r1| ≤ |r2| → t1 ≤ t2)
    ∧ t1 = (1.8 : ℝ) ^ ((|r1| : ℚ) : ℝ) * 2
    ∧ inertiaTime (some (-r1)) = inertiaTime (some r1)
    ∧ (inertiaTime (some (-r1))).Denotes t1
    ∧ (inertiaTime (some 0)).Denotes 2 := by
  have e1 : t1 = (1.8 : ℝ) ^ ((|r1| : ℚ) : ℝ) * 2 := h1
  have e2 : t2 = (1.8 : ℝ) ^ ((|r2| : ℚ) : ℝ) * 2 := h2
  have hneg : inertiaTime (some (-r1)) = inertiaTime (some r1) := by
    simp [inertiaTime, jsAbs]
  refine ⟨?_, e1, hneg, ?_, ?_⟩
  · intro hle
    rw [e1, e2]
    have hc : ((|r1| : ℚ) : ℝ) ≤ ((|r2| : ℚ) : ℝ) := by exact_mod_cast hle
    have hp : (1.8 : ℝ) ^ ((|r1| : ℚ) : ℝ) ≤ (1.8 : ℝ) ^ ((|r2| : ℚ) : ℝ) :=
      Real.rpow_le_rpow_of_exponent_le (by norm_num) hc
    linarith
  · rw [hneg]; exact h1
  · show (2 : ℝ) = (1.8 : ℝ) ^ ((|0| : ℚ) : ℝ) * 2
    simp

/-- C20 at a concrete input: the rates `-1` and `2`, whose inertia times are
`1.8 * 2` and `1.8 ^ 2 * 2`. -/
theorem inertiaTime_monotone_witness :
    (1.8 : ℝ) ^ (((|(-1)| : ℚ)) : ℝ) * 2 ≤ (1.8 : ℝ) ^ (((|2| : ℚ)) : ℝ) * 2 :=
  (inertiaTime_monotone (-1) 2 _ _ rfl rfl).1 (by norm_num)

/-! ## Jog touch: auxiliary facts -/

theorem stopPending_timers (s : State) (g : Group) :
    (stopPending s g).timers =
      if s.wheelTouchInertiaTimer g ≠ some 0 then
        s.timers.filter (fun t => decide (some t.handle ≠ s.wheelTouchInertiaTimer g))
      else s.timers := by
  unfold stopPending
  split_ifs <;> simp [State.stopTimer]

theorem stopPending_calls (s : State) (g : Group) :
    (stopPending s g).calls = s.calls ++
      (if s.wheelTouchInertiaTimer g ≠ some 0 then
        [Effect.stopTimer (s.wheelTouchInertiaTimer g)] else []) := by
  unfold stopPending
  split_ifs <;> simp [State.stopTimer]

theorem stopPending_mem (s : State) (g : Group) (t : Timer)
    (h : t ∈ (stopPending s g).timers) : t ∈ s.timers := by
  rw [stopPending_timers] at h
  split_ifs at h
  · exact (List.mem_filter.mp h).1
  · exact h

theorem stopPending_entry (s : State) (g : Group) :
    (stopPending s g).wheelTouchInertiaTimer g = some 0 := by
  unfold stopPending
  split_ifs with h
  · simp [State.stopTimer]
  · exact not_not.mp h

theorem stopPending_entry_other (s : State) (g h : Group) (hne : h ≠ g) :
    (stopPending s g).wheelTouchInertiaTimer h = s.wheelTouchInertiaTimer h := by
  unfold stopPending
  split_ifs <;> simp [State.stopTimer, Function.update, hne]

theorem stopPending_rest (s : State) (g : Group) :
    (stopPending s g).controls = s.controls
    ∧ (stopPending s g).timerCount = s.timerCount
    ∧ (stopPending s g).canSchedule = s.canSchedule
    ∧ (stopPending s g).tickReceived = s.tickReceived := by
  unfold stopPending
  split_ifs <;> simp [State.stopTimer]

theorem stopPending_stopped (s : State) (g : Group)
    (h : s.wheelTouchInertiaTimer g ≠ some 0) :
    ∀ t ∈ (stopPending s g).timers, some t.handle ≠ s.wheelTouchInertiaTimer g := by
  intro t ht
  rw [stopPending_timers, if_pos h] at ht
  simpa using (List.mem_filter.mp ht).2

theorem stopPending_none_live (s : State) (g : Group) (hc : TimersConsistent s) :
    ∀ t ∈ (stopPending s g).timers, t.callback ≠ g := by
  intro t ht hcb
  have hmem := stopPending_mem s g t ht
  have hst := hc.1 t hmem
  rw [hcb] at hst
  by_cases h : s.wheelTouchInertiaTimer g ≠ some 0
  · exact stopPending_stopped s g h t ht hst.symm
  · have h0 : s.wheelTouchInertiaTimer g = some 0 := not_not.mp h
    rw [h0] at hst
    have hpos := (hc.2.1 t hmem).1
    have : t.handle = 0 := (Option.some.inj hst).symm
    omega

theorem stopPending_consistent (s : State) (g : Group) (hc : TimersConsistent s) :
    TimersConsistent (stopPending s g) := by
  have hnone := stopPending_none_live s g hc
  refine ⟨?_, ?_, ?_, ?_⟩
  · intro t ht
    rw [stopPending_entry_other s g t.callback (hnone t ht)]
    exact hc.1 t (stopPending_mem s g t ht)
  · intro t ht
    rw [(stopPending_rest s g).2.1]
    exact hc.2.1 t (stopPending_mem s g t ht)
  · intro t ht
    exact hc.2.2.1 t (stopPending_mem s g t ht)
  · rw [stopPending_timers]
    split_ifs
    · exact hc.2.2.2.filter _
    · exact hc.2.2.2

theorem jogTouchHandler_down (rd : Group → Option Nat) (s : State) (field : Field)
    (d : Nat) (hv : field.value ≠ 0) (hr : rd (deckToGroup s field.group) = some d) :
    jogTouchHandler rd s field =
      (stopPending s (deckToGroup s field.group)).setValue
        (deckToGroup s field.group).name "scratch2_enable" (some 1) := by
  simp only [jogTouchHandler, Group.name_ne_empty, if_false, hv, ne_eq,
    not_false_eq_true, if_true, hr]

theorem jogTouchHandler_up (rd : Group → Option Nat) (s : State) (field : Field)
    (hv : field.value = 0) :
    jogTouchHandler rd s field =
      if inertiaBelowHundred
          (jsAbs (s.getValue (deckToGroup s field.group).name "scratch2")) then
        finishJogTouch (stopPending s (deckToGroup s field.group))
          (deckToGroup s field.group)
      else
        { ((stopPending s (deckToGroup s field.group)).beginTimer
            (inertiaTime (s.getValue (deckToGroup s field.group).name "scratch2"))
            (deckToGroup s field.group) true).1 with
          wheelTouchInertiaTimer := Function.update
            ((stopPending s (deckToGroup s field.group)).beginTimer
              (inertiaTime (s.getValue (deckToGroup s field.group).name "scratch2"))
              (deckToGroup s field.group) true).1.wheelTouchInertiaTimer
            (deckToGroup s field.group)
            (some ((stopPending s (deckToGroup s field.group)).beginTimer
              (inertiaTime (s.getValue (deckToGroup s field.group).name "scratch2"))
              (deckToGroup s field.group) true).2) } := by
  simp only [jogTouchHandler, Group.name_ne_empty, if_false, hv, ne_eq,
    not_true_eq_false, State.getValue, (stopPending_rest s _).1, inertiaTime]

theorem finishJogTouch_quiet (s : State) (g : Group) (h : s.tickReceived g = false) :
    finishJogTouch s g =
      { ((({ s with wheelTouchInertiaTimer :=
                Function.update s.wheelTouchInertiaTimer g (some 0) } : State).setValue
            g.name "scratch2" (some 0)).setValue g.name "scratch2_enable" (some 0)) with
        tickReceived := Function.update s.tickReceived g false } := by
  simp [finishJogTouch, h, State.setValue]

theorem finishJogTouch_ticked (s : State) (g : Group) (h : s.tickReceived g = true) :
    finishJogTouch s g =
      { s with
        wheelTouchInertiaTimer := Function.update s.wheelTouchInertiaTimer g
          (some (if s.canSchedule then s.timerCount + 1 else 0))
        timers := if s.canSchedule then
            s.timers ++ [{ handle := s.timerCount + 1, delay := .hundred,
                           callback := g, oneShot := true }]
          else s.timers
        timerCount := if s.canSchedule then s.timerCount + 1 else s.timerCount
        calls := s.calls ++ [Effect.beginTimer .hundred g true]
        tickReceived := Function.update s.tickReceived g false } := by
  by_cases hc : s.canSchedule = true
  · simp [finishJogTouch, h, State.beginTimer, hc]
  · simp [finishJogTouch, h, State.beginTimer, hc]

/-! ## Jog touch: theorems -/

/-- C13: on a touch-down report (`field.value != 0`) for a wheel whose active
group resolves to a deck, `jogTouchHandler` stops the pending inertia timer of
that group if the table holds one, leaves `0` in the table, and sets
`scratch2_enable` of the group; it schedules no timer and does not write
`scratch2`. -/
theorem jogTouchHandler_touch_down (rd : Group → Option Nat) (s : State)
    (field : Field) (d : Nat) (hv : field.value ≠ 0)
    (hr : rd (deckToGroup s field.group) = some d) :
    (jogTouchHandler rd s field).calls = s.calls ++
        (if s.wheelTouchInertiaTimer (deckToGroup s field.group) ≠ some 0 then
          [Effect.stopTimer (s.wheelTouchInertiaTimer (deckToGroup s field.group))]
          else [])
        ++ [Effect.setValue (deckToGroup s field.group).name "scratch2_enable" (some 1)]
    ∧ (s.wheelTouchInertiaTimer (deckToGroup s field.group) ≠ some 0 →
        ∀ t ∈ (jogTouchHandler rd s field).timers,
          some t.handle ≠ s.wheelTouchInertiaTimer (deckToGroup s field.group))
    ∧ (TimersConsistent s →
        ∀ t ∈ (jogTouchHandler rd s field).timers,
          t.callback ≠ deckToGroup s field.group)
    ∧ (jogTouchHandler rd s field).wheelTouchInertiaTimer
        (deckToGroup s field.group) = some 0
    ∧ (jogTouchHandler rd s field).getValue (deckToGroup s field.group).name
        "scratch2_enable" = some 1
    ∧ (∀ t ∈ (jogTouchHandler rd s field).timers, t ∈ s.timers)
    ∧ (jogTouchHandler rd s field).timerCount = s.timerCount
    ∧ (jogTouchHandler rd s field).getValue (deckToGroup s field.group).name
        "scratch2" = s.getValue (deckToGroup s field.group).name "scratch2" := by
  rw [jogTouchHandler_down rd s field d hv hr]
  refine ⟨?_, ?_, ?_, ?_, ?_, ?_, ?_, ?_⟩
  · simp [State.setValue, stopPending_calls]
  · intro h t ht
    exact stopPending_stopped s _ h t (by simpa [State.setValue] using ht)
  · intro hc t ht
    exact stopPending_none_live s _ hc t (by simpa [State.setValue] using ht)
  · simpa [State.setValue] using stopPending_entry s (deckToGroup s field.group)
  · simp [State.setValue, State.getValue]
  · intro t ht
    exact stopPending_mem s _ t (by simpa [State.setValue] using ht)
  · simpa [State.setValue] using (stopPending_rest s (deckToGroup s field.group)).2.1
  · simp [State.setValue, State.getValue, (stopPending_rest s _).1]

/-- C13 at a concrete input: a check for `[Channel1]` is pending with handle
`1`; touching the left wheel stops that timer, leaves no live timer and `0`
in the table, and sets `scratch2_enable`. -/
theorem jogTouchHandler_touch_down_witness :
    (jogTouchHandler resolveDeck pendingState ⟨.deck1, 1⟩).calls =
        [Effect.stopTimer (some 1),
          Effect.setValue "[Channel1]" "scratch2_enable" (some 1)]
    ∧ (jogTouchHandler resolveDeck pendingState ⟨.deck1, 1⟩).wheelTouchInertiaTimer
        .channel1 = some 0 := by
  have h := jogTouchHandler_touch_down resolveDeck pendingState ⟨.deck1, 1⟩ 1
    (by decide) rfl
  exact ⟨h.1, h.2.2.2.1⟩

/-- C14, as stated, fails: a jog sample arrives for the left wheel, the wheel
is touched and then let go while `scratch2` reads `0`, so the inertia time is
`2`, below `100`.  On return from `jogTouchHandler` the wheel is not released:
`scratch2_enable` is still set and a check after `100` units is pending,
because `finishJogTouch` found the tick flag of the group set. -/
theorem touch_up_not_released_after_tick :
    (run resolveDeck (initialState (fun _ _ => some 0))
        [.jog ⟨.deck1, 256⟩, .jogTouch ⟨.deck1, 1⟩]).getValue
        "[Channel1]" "scratch2" = some 0
    ∧ inertiaBelowHundred (jsAbs (some 0)) = true
    ∧ (run resolveDeck (initialState (fun _ _ => some 0))
        [.jog ⟨.deck1, 256⟩, .jogTouch ⟨.deck1, 1⟩, .jogTouch ⟨.deck1, 0⟩]).getValue
        "[Channel1]" "scratch2_enable" = some 1
    ∧ (run resolveDeck (initialState (fun _ _ => some 0))
        [.jog ⟨.deck1, 256⟩, .jogTouch ⟨.deck1, 1⟩, .jogTouch ⟨.deck1, 0⟩]).timers =
      [{ handle := 1, delay := .hundred, callback := .channel1, oneShot := true }]
    ∧ (run resolveDeck (initialState (fun _ _ => some 0))
        [.jog ⟨.deck1, 256⟩, .jogTouch ⟨.deck1, 1⟩,
          .jogTouch ⟨.deck1, 0⟩]).wheelTouchInertiaTimer .channel1 = some 1 := by
  decide

/-- C14, amended: on touch-up, whenever the inertia time `1.8 ^ |scratch2| * 2`
is at most `99` (in particular when `scratch2` reads `0`) and no tick has
been received for the group since the last check, the wheel is released at
once: on return `scratch2` is `0`, `scratch2_enable` is false, the table
holds `0`, no timer was scheduled and none is live for the group.  The bound
`99` keeps the rate away from the threshold, where the double that
`Math.pow` returns can reach `100` while the real power is still below it;
with a real value of at most `99` the double is below `100` as well. -/
theorem touch_up_released_when_no_tick (rd : Group → Option Nat) (s : State)
    (field : Field) (r : ℚ) (hv : field.value = 0)
    (hs : s.getValue (deckToGroup s field.group).name "scratch2" = some r)
    (hlt : (1.8 : ℝ) ^ ((|r| : ℚ) : ℝ) * 2 ≤ 99)
    (htick : s.tickReceived (deckToGroup s field.group) = false)
    (hc : TimersConsistent s) :
    (jogTouchHandler rd s field).getValue (deckToGroup s field.group).name
        "scratch2" = some 0
    ∧ (jogTouchHandler rd s field).getValue (deckToGroup s field.group).name
        "scratch2_enable" = some 0
    ∧ (jogTouchHandler rd s field).wheelTouchInertiaTimer
        (deckToGroup s field.group) = some 0
    ∧ (∀ t ∈ (jogTouchHandler rd s field).timers,
        t.callback ≠ deckToGroup s field.group)
    ∧ (jogTouchHandler rd s field).timerCount = s.timerCount
    ∧ inertiaBelowHundred (jsAbs (some 0)) = true := by
  have hb : inertiaBelowHundred
      (jsAbs (s.getValue (deckToGroup s field.group).name "scratch2")) = true := by
    rw [hs]
    exact (inertiaBelowHundred_iff |r|).mpr (lt_of_le_of_lt hlt (by norm_num))
  have ht : (stopPending s (deckToGroup s field.group)).tickReceived
      (deckToGroup s field.group) = false := by
    rw [(stopPending_rest s _).2.2.2]; exact htick
  rw [jogTouchHandler_up rd s field hv, if_pos hb, finishJogTouch_quiet _ _ ht]
  refine ⟨?_, ?_, ?_, ?_, ?_, inertiaBelowHundred_zero⟩
  · simp [State.setValue, State.getValue]
  · simp [State.setValue, State.getValue]
  · simp [State.setValue]
  · intro t ht2
    exact stopPending_none_live s _ hc t (by simpa [State.setValue] using ht2)
  · simpa [State.setValue] using (stopPending_rest s (deckToGroup s field.group)).2.1

/-- C14 amended, at a concrete input: `scratch2` reads `0`, no tick is flagged
and no timer is live; letting go of the left wheel releases it at once. -/
theorem touch_up_released_when_no_tick_witness :
    (jogTouchHandler resolveDeck sampleState ⟨.deck1, 0⟩).getValue
        "[Channel1]" "scratch2_enable" = some 0
    ∧ (jogTouchHandler resolveDeck sampleState ⟨.deck1, 0⟩).wheelTouchInertiaTimer
        .channel1 = some 0 := by
  have h := touch_up_released_when_no_tick resolveDeck sampleState ⟨.deck1, 0⟩ 0
    rfl rfl (by norm_num) rfl (by simp [TimersConsistent, sampleState])
  exact ⟨h.2.1, h.2.2.1⟩

/-- C15: on touch-up with inertia time `1.8 ^ |scratch2| * 2` of at least
`100`, and a timer service that can schedule, `jogTouchHandler` schedules
exactly one timer: one-shot, with the inertia time as delay and
`finishJogTouch` of the group as callback; it stores the handle in the table
and leaves every control, so `scratch2` and `scratch2_enable`, unchanged. -/
theorem touch_up_schedules_check (rd : Group → Option Nat) (s : State)
    (field : Field) (r : ℚ) (hv : field.value = 0)
    (hs : s.getValue (deckToGroup s field.group).name "scratch2" = some r)
    (hge : 100 ≤ (1.8 : ℝ) ^ ((|r| : ℚ) : ℝ) * 2)
    (hcan : s.canSchedule = true) :
    (jogTouchHandler rd s field).calls =
        (stopPending s (deckToGroup s field.group)).calls ++
          [Effect.beginTimer (inertiaTime (some r)) (deckToGroup s field.group) true]
    ∧ (jogTouchHandler rd s field).timers =
        (stopPending s (deckToGroup s field.group)).timers ++
          [{ handle := s.timerCount + 1, delay := inertiaTime (some r),
             callback := deckToGroup s field.group, oneShot := true }]
    ∧ (inertiaTime (some r)).Denotes ((1.8 : ℝ) ^ ((|r| : ℚ) : ℝ) * 2)
    ∧ (jogTouchHandler rd s field).wheelTouchInertiaTimer
        (deckToGroup s field.group) = some (s.timerCount + 1)
    ∧ (jogTouchHandler rd s field).controls = s.controls := by
  have hb : inertiaBelowHundred
      (jsAbs (s.getValue (deckToGroup s field.group).name "scratch2")) = false := by
    rw [hs]
    cases hval : inertiaBelowHundred (jsAbs (some r)) with
    | false => rfl
    | true =>
      have := (inertiaBelowHundred_iff |r|).mp hval
      linarith
  have hcan2 := (stopPending_rest s (deckToGroup s field.group)).2.2.1
  have hcnt := (stopPending_rest s (deckToGroup s field.group)).2.1
  have hctl := (stopPending_rest s (deckToGroup s field.group)).1
  rw [jogTouchHandler_up rd s field hv, hb, hs]
  refine ⟨?_, ?_, rfl, ?_, ?_⟩
  · simp [State.beginTimer, hcan2, hcan]
  · simp [State.beginTimer, hcan2, hcan, hcnt]
  · simp [State.beginTimer, hcan2, hcan, hcnt]
  · simp [State.beginTimer, hcan2, hcan, hctl]

/-- C15 at a concrete input: `scratch2` reads `7`, so the inertia time is
`1.8 ^ 7 * 2`, above `100`; letting go of the left wheel schedules the timer
with handle `1` for `[Channel1]`. -/
theorem touch_up_schedules_check_witness :
    (jogTouchHandler resolveDeck fastState ⟨.deck1, 0⟩).timers =
        [{ handle := 1, delay := inertiaTime (some 7), callback := .channel1,
           oneShot := true }]
    ∧ (jogTouchHandler resolveDeck fastState ⟨.deck1, 0⟩).wheelTouchInertiaTimer
        .channel1 = some 1 := by
  have hge : 100 ≤ (1.8 : ℝ) ^ ((|7| : ℚ) : ℝ) * 2 := by
    have e : ((|7| : ℚ) : ℝ) = ((7 : ℕ) : ℝ) := by norm_num
    rw [e, Real.rpow_natCast]
    norm_num
  have h := touch_up_schedules_check resolveDeck fastState ⟨.deck1, 0⟩ 7
    rfl rfl hge rfl
  exact ⟨h.2.1, h.2.2.2.1⟩

/-- C16: each run of `finishJogTouch(group)`: if a tick was received for the
group since the previous check, it arms a new one-shot check after `100`
units for the same group and leaves every control, so `scratch2` and
`scratch2_enable`, unchanged; if no tick was received, it writes
`scratch2 = 0` and `scratch2_enable = false`, schedules nothing and leaves
`0` in the table, so that no timer is pending when the run was the callback
of the one live timer of the group. -/
theorem finishJogTouch_branches (s : State) (group : Group) :
    (finishJogTouch s group).calls = s.calls ++
        (if s.tickReceived group then [Effect.beginTimer .hundred group true]
          else [Effect.setValue group.name "scratch2" (some 0),
                Effect.setValue group.name "scratch2_enable" (some 0)])
    ∧ Delay.hundred.Denotes 100
    ∧ (s.tickReceived group = true →
        (finishJogTouch s group).controls = s.controls
        ∧ (s.canSchedule = true →
            (finishJogTouch s group).timers = s.timers ++
              [{ handle := s.timerCount + 1, delay := .hundred, callback := group,
                 oneShot := true }]
            ∧ (finishJogTouch s group).wheelTouchInertiaTimer group =
                some (s.timerCount + 1)))
    ∧ (s.tickReceived group = false →
        (finishJogTouch s group).getValue group.name "scratch2" = some 0
        ∧ (finishJogTouch s group).getValue group.name "scratch2_enable" = some 0
        ∧ (finishJogTouch s group).wheelTouchInertiaTimer group = some 0
        ∧ (finishJogTouch s group).timers = s.timers
        ∧ (finishJogTouch s group).timerCount = s.timerCount
        ∧ ((∀ t ∈ s.timers, t.callback ≠ group) →
            ∀ t ∈ (finishJogTouch s group).timers, t.callback ≠ group)) := by
  refine ⟨?_, rfl, ?_, ?_⟩
  · cases h : s.tickReceived group
    · rw [finishJogTouch_quiet s group h]
      simp [State.setValue]
    · rw [finishJogTouch_ticked s group h]
      simp
  · intro h
    rw [finishJogTouch_ticked s group h]
    refine ⟨rfl, ?_⟩
    intro hcan
    simp [hcan]
  · intro h
    rw [finishJogTouch_quiet s group h]
    refine ⟨?_, ?_, ?_, ?_, ?_, ?_⟩
    · simp [State.setValue, State.getValue]
    · simp [State.setValue, State.getValue]
    · simp [State.setValue]
    · simp [State.setValue]
    · simp [State.setValue]
    · intro hn t ht
      exact hn t (by simpa [State.setValue] using ht)

/-- C16 at concrete inputs: with the tick flag set a check is armed and the
controls are untouched; with the flag clear the wheel is released. -/
theorem finishJogTouch_branches_witness :
    ((finishJogTouch tickedState .channel1).controls = tickedState.controls
      ∧ (finishJogTouch tickedState .channel1).timers =
          [{ handle := 1, delay := .hundred, callback := .channel1, oneShot := true }])
    ∧ (finishJogTouch sampleState .channel1).getValue "[Channel1]"
        "scratch2_enable" = some 0 := by
  have h1 := (finishJogTouch_branches tickedState .channel1).2.2.1 rfl
  have h2 := (finishJogTouch_branches sampleState .channel1).2.2.2 rfl
  exact ⟨⟨h1.1, (h1.2 rfl).1⟩, h2.2.1⟩

/-! ## The live timers and the table agree -/

theorem consistent_of_frame (s u : State) (g : Group) (x : Option Nat)
    (hc : TimersConsistent s) (hn : ∀ t ∈ s.timers, t.callback ≠ g)
    (ht : u.timers = s.timers)
    (he : u.wheelTouchInertiaTimer = Function.update s.wheelTouchInertiaTimer g x)
    (hk : u.timerCount = s.timerCount) : TimersConsistent u := by
  refine ⟨?_, ?_, ?_, ?_⟩
  · intro t htm
    rw [ht] at htm
    rw [he, Function.update_noteq (hn t htm)]
    exact hc.1 t htm
  · intro t htm
    rw [ht] at htm
    rw [hk]
    exact hc.2.1 t htm
  · intro t htm
    rw [ht] at htm
    exact hc.2.2.1 t htm
  · rw [ht]
    exact hc.2.2.2

theorem consistent_of_armed (s u : State) (g : Group) (d : Delay)
    (hc : TimersConsistent s) (hn : ∀ t ∈ s.timers, t.callback ≠ g)
    (ht : u.timers = s.timers ++
      [{ handle := s.timerCount + 1, delay := d, callback := g, oneShot := true }])
    (he : u.wheelTouchInertiaTimer =
      Function.update s.wheelTouchInertiaTimer g (some (s.timerCount + 1)))
    (hk : u.timerCount = s.timerCount + 1) : TimersConsistent u := by
  refine ⟨?_, ?_, ?_, ?_⟩
  · intro t htm
    rw [ht, List.mem_append, List.mem_singleton] at htm
    rcases htm with hold | hnew
    · rw [he, Function.update_noteq (hn t hold)]
      exact hc.1 t hold
    · rw [he, hnew]
      simp
  · intro t htm
    rw [ht, List.mem_append, List.mem_singleton] at htm
    rw [hk]
    rcases htm with hold | hnew
    · have := hc.2.1 t hold
      omega
    · rw [hnew]
      simp
  · intro t htm
    rw [ht, List.mem_append, List.mem_singleton] at htm
    rcases htm with hold | hnew
    · exact hc.2.2.1 t hold
    · rw [hnew]
  · rw [ht, List.pairwise_append]
    refine ⟨hc.2.2.2, List.pairwise_singleton _ _, ?_⟩
    intro a ha b hb
    rw [List.mem_singleton] at hb
    rw [hb]
    exact hn a ha

theorem consistent_of_filter (s : State) (p : Timer → Bool)
    (hc : TimersConsistent s) :
    TimersConsistent { s with timers := s.timers.filter p } := by
  refine ⟨?_, ?_, ?_, ?_⟩
  · intro t htm
    exact hc.1 t (List.mem_filter.mp htm).1
  · intro t htm
    exact hc.2.1 t (List.mem_filter.mp htm).1
  · intro t htm
    exact hc.2.2.1 t (List.mem_filter.mp htm).1
  · exact hc.2.2.2.filter _

theorem consistent_congr (s u : State) (hc : TimersConsistent s)
    (ht : u.timers = s.timers)
    (he : u.wheelTouchInertiaTimer = s.wheelTouchInertiaTimer)
    (hk : u.timerCount = s.timerCount) : TimersConsistent u := by
  unfold TimersConsistent
  rw [ht, he, hk]
  exact hc

theorem finishJogTouch_consistent (s : State) (g : Group)
    (hc : TimersConsistent s) (hn : ∀ t ∈ s.timers, t.callback ≠ g) :
    TimersConsistent (finishJogTouch s g) := by
  cases h : s.tickReceived g
  · rw [finishJogTouch_quiet s g h]
    exact consistent_of_frame s _ g (some 0) hc hn (by simp [State.setValue])
      (by simp [State.setValue]) (by simp [State.setValue])
  · rw [finishJogTouch_ticked s g h]
    cases hcan : s.canSchedule
    · exact consistent_of_frame s _ g (some 0) hc hn (by simp) (by simp) (by simp)
    · exact consistent_of_armed s _ g .hundred hc hn (by simp) (by simp) (by simp)

theorem jogTouchHandler_consistent (rd : Group → Option Nat) (s : State)
    (field : Field) (hc : TimersConsistent s) :
    TimersConsistent (jogTouchHandler rd s field) := by
  have hc1 := stopPending_consistent s (deckToGroup s field.group) hc
  have hn1 := stopPending_none_live s (deckToGroup s field.group) hc
  by_cases hv : field.value = 0
  · rw [jogTouchHandler_up rd s field hv]
    split_ifs
    · exact finishJogTouch_consistent _ _ hc1 hn1
    · cases hcan : (stopPending s (deckToGroup s field.group)).canSchedule
      · exact consistent_of_frame _ _ (deckToGroup s field.group) (some 0) hc1 hn1
          (by simp [State.beginTimer, hcan]) (by simp [State.beginTimer, hcan])
          (by simp [State.beginTimer, hcan])
      · exact consistent_of_armed _ _ (deckToGroup s field.group)
          (inertiaTime (s.getValue (deckToGroup s field.group).name "scratch2"))
          hc1 hn1
          (by simp [State.beginTimer, hcan]) (by simp [State.beginTimer, hcan])
          (by simp [State.beginTimer, hcan])
  · cases hr : rd (deckToGroup s field.group) with
    | none =>
      have e : jogTouchHandler rd s field = stopPending s (deckToGroup s field.group) := by
        simp only [jogTouchHandler, Group.name_ne_empty, if_false, hv, ne_eq,
          not_false_eq_true, if_true, hr]
      rw [e]
      exact hc1
    | some d =>
      rw [jogTouchHandler_down rd s field d hv hr]
      exact consistent_congr _ _ hc1 (by simp [State.setValue])
        (by simp [State.setValue]) (by simp [State.setValue])

theorem fireTimer_cases (s : State) (handle : Nat) :
    fireTimer s handle = s
    ∨ ∃ t ∈ s.timers, t.handle = handle
        ∧ fireTimer s handle =
            finishJogTouch
              (if t.oneShot then
                { s with timers :=
                    s.timers.filter (fun u => decide (u.handle ≠ handle)) }
                else s)
              t.callback := by
  cases hf : s.timers.find? (fun t => decide (t.handle = handle)) with
  | none =>
    left
    simp only [fireTimer, hf]
  | some t =>
    right
    refine ⟨t, List.mem_of_find?_eq_some hf, ?_, ?_⟩
    · simpa using List.find?_some hf
    · simp only [fireTimer, hf]

theorem fireTimer_consistent (s : State) (handle : Nat) (hc : TimersConsistent s) :
    TimersConsistent (fireTimer s handle) := by
  rcases fireTimer_cases s handle with h | ⟨t, hmem, hh, h⟩
  · rw [h]; exact hc
  · rw [h, hc.2.2.1 t hmem, if_pos rfl]
    apply finishJogTouch_consistent _ _ (consistent_of_filter s _ hc)
    intro u hu hcb
    have hu2 := List.mem_filter.mp hu
    have e1 := hc.1 u hu2.1
    have e2 := hc.1 t hmem
    rw [hcb, e2] at e1
    have : u.handle = handle := by
      rw [← hh]; exact (Option.some.inj e1).symm
    simp [this] at hu2

theorem jogHandler_frame (s : State) (field : Field) :
    (jogHandler s field).timers = s.timers
    ∧ (jogHandler s field).wheelTouchInertiaTimer = s.wheelTouchInertiaTimer
    ∧ (jogHandler s field).timerCount = s.timerCount
    ∧ (jogHandler s field).canSchedule = s.canSchedule := by
  rw [jogHandler_eq]
  split_ifs <;> simp [State.setValue, wheelDeltas]

theorem step_consistent (rd : Group → Option Nat) (s : State) (e : Event)
    (hc : TimersConsistent s) : TimersConsistent (step rd s e) := by
  cases e with
  | jogTouch field => exact jogTouchHandler_consistent rd s field hc
  | jog field =>
    exact consistent_congr s _ hc (jogHandler_frame s field).1
      (jogHandler_frame s field).2.1 (jogHandler_frame s field).2.2.1
  | timerFires handle => exact fireTimer_consistent s handle hc
  | hostSchedulable able => exact consistent_congr s _ hc rfl rfl rfl

theorem run_consistent (rd : Group → Option Nat) (events : List Event) (s : State)
    (hc : TimersConsistent s) : TimersConsistent (run rd s events) := by
  induction events generalizing s with
  | nil => exact hc
  | cons e rest ih => exact ih (step rd s e) (step_consistent rd s e hc)

theorem initialState_consistent (controls : String → String → JsNum) :
    TimersConsistent (initialState controls) := by
  simp [TimersConsistent, initialState]

theorem filter_callback_length (l : List Timer) (g : Group)
    (hp : l.Pairwise (fun a b => a.callback ≠ b.callback)) :
    (l.filter (fun t => decide (t.callback = g))).length ≤ 1 := by
  induction l with
  | nil => simp
  | cons a rest ih =>
    rw [List.pairwise_cons] at hp
    by_cases ha : a.callback = g
    · have hnil : rest.filter (fun t => decide (t.callback = g)) = [] := by
        rw [List.filter_eq_nil_iff]
        intro b hb
        have := hp.1 b hb
        rw [ha] at this
        simpa using fun h => this h.symm
      simp [List.filter_cons, ha, hnil]
    · simpa [List.filter_cons, ha] using ih hp.2

/-- C18: in every state reachable from the initial state through touch
reports, jog samples and timer firings (the timer service being able to
schedule or not), each group has at most one live inertia timer, and every
live timer is the one whose handle, which is not `0`, the table
`wheelTouchInertiaTimer` holds for its group. -/
theorem reachable_one_timer_per_group (rd : Group → Option Nat)
    (controls : String → String → JsNum) (events : List Event) :
    (∀ g : Group,
        ((run rd (initialState controls) events).timers.filter
          (fun t => decide (t.callback = g))).length ≤ 1)
    ∧ (∀ t ∈ (run rd (initialState controls) events).timers,
        (run rd (initialState controls) events).wheelTouchInertiaTimer t.callback =
            some t.handle
          ∧ t.handle ≠ 0) := by
  have hc := run_consistent rd events _ (initialState_consistent controls)
  refine ⟨fun g => filter_callback_length _ g hc.2.2.2, ?_⟩
  intro t ht
  refine ⟨hc.1 t ht, ?_⟩
  have := (hc.2.1 t ht).1
  omega

/-! ## After a re-touch nothing releases the wheel -/

theorem finishJogTouch_controls_other (s : State) (g h : Group) (k : String)
    (hne : h ≠ g) :
    (finishJogTouch s h).controls g.name k = s.controls g.name k := by
  have hname : g.name ≠ h.name := fun e => hne (Group.name_injective g h e).symm
  cases ht : s.tickReceived h
  · rw [finishJogTouch_quiet s h ht]
    simp [State.setValue, hname]
  · rw [finishJogTouch_ticked s h ht]

theorem finishJogTouch_timers_mem (s : State) (h : Group) (t : Timer)
    (hm : t ∈ (finishJogTouch s h).timers) : t ∈ s.timers ∨ t.callback = h := by
  cases ht : s.tickReceived h
  · rw [finishJogTouch_quiet s h ht] at hm
    left
    simpa [State.setValue] using hm
  · rw [finishJogTouch_ticked s h ht] at hm
    cases hcan : s.canSchedule
    · left
      simpa [hcan] using hm
    · simp only [hcan, if_true, List.mem_append, List.mem_singleton] at hm
      rcases hm with hold | hnew
      · exact Or.inl hold
      · right
        rw [hnew]

theorem step_keeps_scratch (rd : Group → Option Nat) (s : State) (e : Event)
    (g : Group) (hup : e.isTouchUp = false)
    (hn : ∀ t ∈ s.timers, t.callback ≠ g)
    (hen : s.controls g.name "scratch2_enable" = some 1) :
    (∀ t ∈ (step rd s e).timers, t.callback ≠ g)
    ∧ (step rd s e).controls g.name "scratch2_enable" = some 1
    ∧ (e.isJog = false →
        (step rd s e).controls g.name "scratch2" = s.controls g.name "scratch2") := by
  cases e with
  | jogTouch field =>
    have hv : field.value ≠ 0 := by simpa [Event.isTouchUp] using hup
    have hsub : ∀ t ∈ (stopPending s (deckToGroup s field.group)).timers,
        t.callback ≠ g := fun t ht => hn t (stopPending_mem s _ t ht)
    have hctl := (stopPending_rest s (deckToGroup s field.group)).1
    cases hr : rd (deckToGroup s field.group) with
    | none =>
      have e : jogTouchHandler rd s field = stopPending s (deckToGroup s field.group) := by
        simp only [jogTouchHandler, Group.name_ne_empty, if_false, hv, ne_eq,
          not_false_eq_true, if_true, hr]
      simp only [step, e, hctl]
      exact ⟨hsub, hen, fun _ => trivial⟩
    | some d =>
      simp only [step, jogTouchHandler_down rd s field d hv hr]
      refine ⟨?_, ?_, ?_⟩
      · intro t ht
        exact hsub t (by simpa [State.setValue] using ht)
      · simp only [State.setValue, hctl]
        split_ifs
        · rfl
        · exact hen
      · intro _
        simp [State.setValue, hctl]
  | jog field =>
    simp only [step]
    refine ⟨?_, ?_, ?_⟩
    · rw [(jogHandler_frame s field).1]
      exact hn
    · rw [jogHandler_eq]
      split_ifs <;> simpa [State.setValue, wheelDeltas] using hen
    · intro hj
      simp [Event.isJog] at hj
  | timerFires handle =>
    simp only [step]
    rcases fireTimer_cases s handle with h | ⟨t, hmem, _, h⟩
    · rw [h]
      exact ⟨hn, hen, fun _ => rfl⟩
    · have hcb : t.callback ≠ g := hn t hmem
      have hsub : ∀ u ∈ (if t.oneShot then
            { s with timers :=
                s.timers.filter (fun u => decide (u.handle ≠ handle)) }
            else s).timers, u.callback ≠ g := by
        intro u hu
        split_ifs at hu
        · exact hn u (List.mem_filter.mp hu).1
        · exact hn u hu
      have hctl : ∀ k, (if t.oneShot then
            { s with timers :=
                s.timers.filter (fun u => decide (u.handle ≠ handle)) }
            else s).controls g.name k = s.controls g.name k := by
        intro k
        split_ifs <;> rfl
      rw [h]
      refine ⟨?_, ?_, ?_⟩
      · intro u hu
        rcases finishJogTouch_timers_mem _ _ u hu with hold | hnew
        · exact hsub u hold
        · rw [hnew]; exact hcb
      · rw [finishJogTouch_controls_other _ g t.callback _ hcb, hctl]
        exact hen
      · intro _
        rw [finishJogTouch_controls_other _ g t.callback _ hcb, hctl]
  | hostSchedulable able =>
    exact ⟨hn, hen, fun _ => rfl⟩

theorem run_keeps_scratch (rd : Group → Option Nat) (g : Group)
    (later : List Event) (s : State)
    (hup : ∀ e ∈ later, e.isTouchUp = false)
    (hn : ∀ t ∈ s.timers, t.callback ≠ g)
    (hen : s.controls g.name "scratch2_enable" = some 1) :
    (∀ t ∈ (run rd s later).timers, t.callback ≠ g)
    ∧ (run rd s later).controls g.name "scratch2_enable" = some 1
    ∧ ((∀ e ∈ later, e.isJog = false) →
        (run rd s later).controls g.name "scratch2" = s.controls g.name "scratch2") := by
  induction later generalizing s with
  | nil => exact ⟨hn, hen, fun _ => rfl⟩
  | cons e rest ih =>
    have h1 := step_keeps_scratch rd s e g (hup e (List.mem_cons_self e rest)) hn hen
    have h2 := ih (step rd s e)
      (fun x hx => hup x (List.mem_cons_of_mem e hx)) h1.1 h1.2.1
    refine ⟨h2.1, h2.2.1, ?_⟩
    intro hj
    have e1 := h2.2.2 (fun x hx => hj x (List.mem_cons_of_mem e hx))
    have e2 := h1.2.2 (hj e (List.mem_cons_self e rest))
    exact e1.trans e2

/-- C17: if the wheel is touched again while a release check is pending,
`jogTouchHandler` stops the pending timer and clears its handle: no timer is
live for the group, and firing the stopped handle runs nothing.  From then
on, whatever timers fire and whatever jog samples and touch-down reports
arrive, as long as no touch-up report arrives, `scratch2_enable` of the group
stays set and no timer is live for the group; and while only time advances
(no jog sample writes a new rate) `scratch2` keeps its value, so it is never
zeroed. -/
theorem retouch_cancels_release (rd : Group → Option Nat) (s : State)
    (field : Field) (d : Nat) (later : List Event)
    (hc : TimersConsistent s) (hv : field.value ≠ 0)
    (hr : rd (deckToGroup s field.group) = some d)
    (hup : ∀ e ∈ later, e.isTouchUp = false) :
    (∀ t ∈ (jogTouchHandler rd s field).timers,
        t.callback ≠ deckToGroup s field.group)
    ∧ (jogTouchHandler rd s field).wheelTouchInertiaTimer
        (deckToGroup s field.group) = some 0
    ∧ (∀ h : Nat, s.wheelTouchInertiaTimer (deckToGroup s field.group) = some h →
        h ≠ 0 →
        fireTimer (jogTouchHandler rd s field) h = jogTouchHandler rd s field)
    ∧ (run rd (jogTouchHandler rd s field) later).getValue
        (deckToGroup s field.group).name "scratch2_enable" = some 1
    ∧ (∀ t ∈ (run rd (jogTouchHandler rd s field) later).timers,
        t.callback ≠ deckToGroup s field.group)
    ∧ ((∀ e ∈ later, e.isJog = false) →
        (run rd (jogTouchHandler rd s field) later).getValue
            (deckToGroup s field.group).name "scratch2" =
          s.getValue (deckToGroup s field.group).name "scratch2") := by
  have hdown := jogTouchHandler_down rd s field d hv hr
  have hn : ∀ t ∈ (jogTouchHandler rd s field).timers,
      t.callback ≠ deckToGroup s field.group := by
    intro t ht
    rw [hdown] at ht
    exact stopPending_none_live s _ hc t (by simpa [State.setValue] using ht)
  have hen : (jogTouchHandler rd s field).controls
      (deckToGroup s field.group).name "scratch2_enable" = some 1 := by
    rw [hdown]
    simp [State.setValue]
  have hs2 : (jogTouchHandler rd s field).controls
      (deckToGroup s field.group).name "scratch2" =
      s.controls (deckToGroup s field.group).name "scratch2" := by
    rw [hdown]
    simp [State.setValue, (stopPending_rest s _).1]
  have hrun := run_keeps_scratch rd (deckToGroup s field.group) later
    (jogTouchHandler rd s field) hup hn hen
  refine ⟨hn, ?_, ?_, hrun.2.1, hrun.1, ?_⟩
  · rw [hdown]
    simpa [State.setValue] using stopPending_entry s (deckToGroup s field.group)
  · intro h hst h0
    have hne : s.wheelTouchInertiaTimer (deckToGroup s field.group) ≠ some 0 := by
      rw [hst]
      intro e
      exact h0 (Option.some.inj e)
    have hnone : (jogTouchHandler rd s field).timers.find?
        (fun t => decide (t.handle = h)) = none := by
      rw [List.find?_eq_none]
      intro t ht
      rw [hdown] at ht
      have := stopPending_stopped s _ hne t (by simpa [State.setValue] using ht)
      rw [hst] at this
      simpa using fun e => this (by rw [e])
    simp only [fireTimer, hnone]
  · intro hj
    exact (hrun.2.2 hj).trans hs2

/-- C17 at a concrete input: a check for `[Channel1]` is pending with handle
`1`; the left wheel is touched again, then the stopped handle fires, a jog
sample arrives and the handle fires once more: `scratch2_enable` is still
set and no timer is live. -/
theorem retouch_cancels_release_witness :
    (run resolveDeck (jogTouchHandler resolveDeck pendingState ⟨.deck1, 1⟩)
        [.timerFires 1, .jog ⟨.deck1, 256⟩, .timerFires 1]).getValue
        "[Channel1]" "scratch2_enable" = some 1
    ∧ ∀ t ∈ (run resolveDeck (jogTouchHandler resolveDeck pendingState ⟨.deck1, 1⟩)
        [.timerFires 1, .jog ⟨.deck1, 256⟩, .timerFires 1]).timers,
        t.callback ≠ .channel1 := by
  have h := retouch_cancels_release resolveDeck pendingState ⟨.deck1, 1⟩ 1
    [.timerFires 1, .jog ⟨.deck1, 256⟩, .timerFires 1]
    (by unfold TimersConsistent; decide) (by decide) rfl (by decide)
  exact ⟨h.2.2.2.1, h.2.2.2.2.1⟩

/-! ## Tick and time deltas: further theorems -/

/-- C25: `wheelDeltas` recovers every true step of at most 56 ticks: for a
stored tick `prevTick` in `0..255` and `-56 <= k <= 56`, the sample tick
`(prevTick + k) mod 256` gives the tick delta `k`; the bound is the largest
one, a step of `+57` from the stored tick `199` gives `-199`. -/
theorem wheelDeltas_recovers_small_steps (s : State) (d : DeckArg)
    (prevTick k timeVal : Int)
    (hp0 : 0 ≤ prevTick) (hp : prevTick ≤ 255) (hk0 : -56 ≤ k) (hk : k ≤ 56)
    (hT0 : 0 ≤ timeVal) (hT : timeVal < 16777216)
    (hs : s.lastTickVal d.minusOne = some prevTick) :
    (wheelDeltas s d (timeVal * 256 + (prevTick + k) % 256)).tickDelta = some k
    ∧ (wheelDeltas { s with lastTickVal := fun _ => some 199 } d
        (timeVal * 256 + (199 + 57) % 256)).tickDelta = some (-199) := by
  constructor
  · rw [wheelDeltas_tickDelta s d _ prevTick hs,
      (sample_split ((prevTick + k) % 256) timeVal (by omega) (by omega) hT0 hT).1]
    congr 1
    split_ifs <;> omega
  · rw [wheelDeltas_tickDelta _ d _ 199 rfl,
      (sample_split ((199 + 57) % 256) timeVal (by decide) (by decide) hT0 hT).1]
    rfl

/-- C25 at a concrete input: stored tick `250`, a step of `+56` across the
wrap (sample tick `50`) gives `56`. -/
theorem wheelDeltas_recovers_small_steps_witness :
    (wheelDeltas sampleState (.number 1) (501 * 256 + (250 + 56) % 256)).tickDelta =
      some 56 :=
  (wheelDeltas_recovers_small_steps sampleState (.number 1) 250 56 501
    (by decide) (by decide) (by decide) (by decide) (by decide) (by decide) rfl).1

/-- C26: the tick delta is antisymmetric: for ticks `a` and `b` in `0..255`,
the delta for stored tick `a` and sample tick `b` is the negation of the
delta for stored tick `b` and sample tick `a`; equal ticks give `0`. -/
theorem wheelDeltas_tickDelta_antisymm (s1 s2 : State) (d1 d2 : DeckArg)
    (a b time1 time2 : Int)
    (ha0 : 0 ≤ a) (ha : a ≤ 255) (hb0 : 0 ≤ b) (hb : b ≤ 255)
    (h10 : 0 ≤ time1) (h1 : time1 < 16777216)
    (h20 : 0 ≤ time2) (h2 : time2 < 16777216)
    (hs1 : s1.lastTickVal d1.minusOne = some a)
    (hs2 : s2.lastTickVal d2.minusOne = some b) :
    ∃ x : Int, (wheelDeltas s1 d1 (time1 * 256 + b)).tickDelta = some x
      ∧ (wheelDeltas s2 d2 (time2 * 256 + a)).tickDelta = some (-x)
      ∧ (a = b → x = 0) := by
  rw [wheelDeltas_tickDelta s1 d1 _ a hs1, wheelDeltas_tickDelta s2 d2 _ b hs2,
    (sample_split b time1 hb0 hb h10 h1).1, (sample_split a time2 ha0 ha h20 h2).1]
  refine ⟨_, rfl, ?_, ?_⟩
  · congr 1
    split_ifs <;> omega
  · intro hab
    split_ifs <;> omega

/-- C26 at a concrete input: stored tick `250` and sample tick `10` give
`16`; stored tick `10` and sample tick `250` give `-16`. -/
theorem wheelDeltas_tickDelta_antisymm_witness :
    ∃ x : Int, (wheelDeltas sampleState (.number 1) (501 * 256 + 10)).tickDelta =
        some x
      ∧ (wheelDeltas { sampleState with lastTickVal := fun _ => some 10 }
          (.number 1) (501 * 256 + 250)).tickDelta = some (-x)
      ∧ ((250 : Int) = 10 → x = 0) :=
  wheelDeltas_tickDelta_antisymm sampleState
    { sampleState with lastTickVal := fun _ => some 10 } (.number 1) (.number 1)
    250 10 501 501 (by decide) (by decide) (by decide) (by decide) (by decide)
    (by decide) (by decide) (by decide) rfl rfl

/-- C27: for a stored tick and a sample tick in `0..255`, the tick delta
returned by `wheelDeltas` is congruent to `tickVal - prevTick` modulo `256`
and lies between `-199` and `199`. -/
theorem wheelDeltas_tickDelta_bounds (s : State) (d : DeckArg)
    (prevTick tickVal timeVal : Int)
    (hp0 : 0 ≤ prevTick) (hp : prevTick ≤ 255)
    (ht0 : 0 ≤ tickVal) (ht : tickVal ≤ 255)
    (hT0 : 0 ≤ timeVal) (hT : timeVal < 16777216)
    (hs : s.lastTickVal d.minusOne = some prevTick) :
    ∃ x : Int, (wheelDeltas s d (timeVal * 256 + tickVal)).tickDelta = some x
      ∧ (x - (tickVal - prevTick)) % 256 = 0
      ∧ -199 ≤ x ∧ x ≤ 199 := by
  rw [wheelDeltas_tickDelta s d _ prevTick hs,
    (sample_split tickVal timeVal ht0 ht hT0 hT).1]
  refine ⟨_, rfl, ?_, ?_, ?_⟩ <;> split_ifs <;> omega

/-- C27 at a concrete input: stored tick `250`, sample tick `10`. -/
theorem wheelDeltas_tickDelta_bounds_witness :
    ∃ x : Int, (wheelDeltas sampleState (.number 1) (501 * 256 + 10)).tickDelta =
        some x
      ∧ (x - (10 - 250)) % 256 = 0 ∧ -199 ≤ x ∧ x ≤ 199 :=
  wheelDeltas_tickDelta_bounds sampleState (.number 1) 250 10 501
    (by decide) (by decide) (by decide) (by decide) (by decide) (by decide) rfl

/-- C28: if the stored time and the sample time are both below `0x100000`,
the time delta returned by `wheelDeltas` lies in `[1, 0xFFFFF]`, and unless
the two times are equal it is congruent to `timeVal - prevTime` modulo
`0x100000`. -/
theorem wheelDeltas_timeDelta_bounds (s : State) (d : DeckArg)
    (prevTime tickVal timeVal : Int)
    (hp0 : 0 ≤ prevTime) (hp : prevTime < 1048576)
    (ht0 : 0 ≤ tickVal) (ht : tickVal ≤ 255)
    (hT0 : 0 ≤ timeVal) (hT : timeVal < 1048576)
    (hs : s.lastTickTime d.minusOne = some prevTime) :
    ∃ x : Int, (wheelDeltas s d (timeVal * 256 + tickVal)).timeDelta = some x
      ∧ 1 ≤ x ∧ x ≤ 1048575
      ∧ (prevTime ≠ timeVal → (x - (timeVal - prevTime)) % 1048576 = 0) := by
  rw [wheelDeltas_timeDelta s d _ prevTime hs,
    (sample_split tickVal timeVal ht0 ht hT0 (by omega)).2]
  refine ⟨_, rfl, ?_, ?_, ?_⟩
  · split_ifs <;> omega
  · split_ifs <;> omega
  · intro hne
    split_ifs <;> omega

/-- C28 at a concrete input: stored time `500`, sample time `3`: the counter
wrapped and the delta is `3 + 0x100000 - 500`. -/
theorem wheelDeltas_timeDelta_bounds_witness :
    ∃ x : Int, (wheelDeltas sampleState (.number 1) (3 * 256 + 7)).timeDelta = some x
      ∧ 1 ≤ x ∧ x ≤ 1048575
      ∧ ((500 : Int) ≠ 3 → (x - (3 - 500)) % 1048576 = 0) :=
  wheelDeltas_timeDelta_bounds sampleState (.number 1) 500 7 3
    (by decide) (by decide) (by decide) (by decide) (by decide) (by decide) rfl

/-! ## Malformed samples and the inertia threshold -/

theorem wheelDeltas_mod (s : State) (d : DeckArg) (v : Int) :
    wheelDeltas s d v = wheelDeltas s d (v % 4294967296) := by
  simp only [wheelDeltas, Int.emod_emod_of_dvd v (dvd_refl (4294967296 : Int))]

/-- C22, as stated, fails: the sample `2^32 + 5 * 256 + 3`, which does not fit
the 32-bit field, is not ignored.  `wheelDeltas` overwrites the stored tick
`250` by `3` and the stored time `500` by `5`, and `jogHandler` makes an
engine write for it; so does the negative sample `-1`. -/
theorem oversized_sample_is_processed :
    sampleState.lastTickVal (.index 0) = some 250
    ∧ sampleState.lastTickTime (.index 0) = some 500
    ∧ (wheelDeltas sampleState (.number 1) 4294968579).state.lastTickVal (.index 0) =
        some 3
    ∧ (wheelDeltas sampleState (.number 1) 4294968579).state.lastTickTime (.index 0) =
        some 5
    ∧ (wheelDeltas sampleState (.number 1) (-1)).state.lastTickVal (.index 0) =
        some 255
    ∧ (jogHandler sampleState ⟨.deck1, 4294968579⟩).calls.length = 1
    ∧ (jogHandler sampleState ⟨.deck1, 4294968579⟩).lastTickVal .nan = some 3 := by
  decide

/-- C22, amended: a jog sample that does not fit the 32-bit field is not
rejected: `wheelDeltas` and `jogHandler` treat every value `v` as its 32-bit
image `v mod 2^32`, store the low byte and the upper 24 bits of that image,
and `jogHandler` writes one velocity for it. -/
theorem sample_taken_modulo_word (s : State) (d : DeckArg) (field : Field) :
    wheelDeltas s d field.value = wheelDeltas s d (field.value % 4294967296)
    ∧ (wheelDeltas s d field.value).state.lastTickVal d.minusOne =
        some (field.value % 4294967296 % 256)
    ∧ (wheelDeltas s d field.value).state.lastTickTime d.minusOne =
        some (field.value % 4294967296 / 256)
    ∧ jogHandler s field = jogHandler s ⟨field.group, field.value % 4294967296⟩
    ∧ (jogHandler s field).calls.length = s.calls.length + 1 := by
  refine ⟨wheelDeltas_mod s d field.value, ?_, ?_, ?_, ?_⟩
  · simp [wheelDeltas]
  · simp [wheelDeltas]
  · rw [jogHandler_eq, jogHandler_eq]
    simp only [jogSampleVelocity, ← wheelDeltas_mod]
  · rw [jogHandler_eq]
    split_ifs <;> simp [State.setValue, wheelDeltas]

theorem rpow_six : (1.8 : ℝ) ^ (6 : ℝ) * 2 < 100 := by
  have e : (6 : ℝ) = ((6 : ℕ) : ℝ) := by norm_num
  rw [e, Real.rpow_natCast]
  norm_num

theorem rpow_seven : 100 ≤ (1.8 : ℝ) ^ (7 : ℝ) * 2 := by
  have e : (7 : ℝ) = ((7 : ℕ) : ℝ) := by norm_num
  rw [e, Real.rpow_natCast]
  norm_num

/-- C29: with inertia time `1.8 ^ |r| * 2` for the rate `r` read at touch-up:
for every `|r| <= 6` the inertia time is below `100` and `jogTouchHandler`
takes the immediate path (it runs `finishJogTouch` and schedules no timer
itself); for every `|r| >= 7` the inertia time is at least `100` and
`jogTouchHandler` takes the scheduled path (its one call after stopping a
pending timer is `beginTimer` with the inertia time). -/
theorem inertia_threshold (rd : Group → Option Nat) (s : State) (field : Field)
    (r : ℚ) (hv : field.value = 0)
    (hs : s.getValue (deckToGroup s field.group).name "scratch2" = some r) :
    (|r| ≤ 6 →
        (1.8 : ℝ) ^ ((|r| : ℚ) : ℝ) * 2 < 100
        ∧ inertiaBelowHundred (jsAbs (some r)) = true
        ∧ jogTouchHandler rd s field =
            finishJogTouch (stopPending s (deckToGroup s field.group))
              (deckToGroup s field.group))
    ∧ (7 ≤ |r| →
        100 ≤ (1.8 : ℝ) ^ ((|r| : ℚ) : ℝ) * 2
        ∧ inertiaBelowHundred (jsAbs (some r)) = false
        ∧ (jogTouchHandler rd s field).calls =
            (stopPending s (deckToGroup s field.group)).calls ++
              [Effect.beginTimer (inertiaTime (some r))
                (deckToGroup s field.group) true]) := by
  constructor
  · intro hle
    have hc : ((|r| : ℚ) : ℝ) ≤ 6 := by exact_mod_cast hle
    have hp : (1.8 : ℝ) ^ ((|r| : ℚ) : ℝ) ≤ (1.8 : ℝ) ^ (6 : ℝ) :=
      Real.rpow_le_rpow_of_exponent_le (by norm_num) hc
    have hlt : (1.8 : ℝ) ^ ((|r| : ℚ) : ℝ) * 2 < 100 := by
      have := rpow_six
      linarith
    have hb : inertiaBelowHundred (jsAbs (some r)) = true :=
      (inertiaBelowHundred_iff |r|).mpr hlt
    refine ⟨hlt, hb, ?_⟩
    rw [jogTouchHandler_up rd s field hv, hs, if_pos hb]
  · intro hge
    have hc : (7 : ℝ) ≤ ((|r| : ℚ) : ℝ) := by exact_mod_cast hge
    have hp : (1.8 : ℝ) ^ (7 : ℝ) ≤ (1.8 : ℝ) ^ ((|r| : ℚ) : ℝ) :=
      Real.rpow_le_rpow_of_exponent_le (by norm_num) hc
    have hle : 100 ≤ (1.8 : ℝ) ^ ((|r| : ℚ) : ℝ) * 2 := by
      have := rpow_seven
      linarith
    have hb : inertiaBelowHundred (jsAbs (some r)) = false := by
      cases hval : inertiaBelowHundred (jsAbs (some r)) with
      | false => rfl
      | true =>
        have := (inertiaBelowHundred_iff |r|).mp hval
        linarith
    refine ⟨hle, hb, ?_⟩
    rw [jogTouchHandler_up rd s field hv, hs, hb]
    by_cases hcan : (stopPending s (deckToGroup s field.group)).canSchedule = true
    · simp [State.beginTimer, hcan]
    · simp [State.beginTimer, hcan]

/-- C29 at a concrete input: `scratch2` reads `7`, so the touch-up takes the
scheduled path and the one call made is `beginTimer`. -/
theorem inertia_threshold_witness :
    (jogTouchHandler resolveDeck fastState ⟨.deck1, 0⟩).calls =
      [Effect.beginTimer (inertiaTime (some 7)) .channel1 true] :=
  ((inertia_threshold resolveDeck fastState ⟨.deck1, 0⟩ 7 rfl rfl).2
    (by norm_num)).2.2

/-! ## Timer service unable to schedule -/

/-- C21, as stated, fails: the code has no fallback for a timer service that
cannot schedule.  With `scratch2` reading `7`, the wheel is touched and let
go while the service is unable: on return `scratch2_enable` is still set,
`scratch2` is still `7`, the table holds `0` and no timer is live.  The same
happens when `finishJogTouch` cannot re-arm its check after a jog sample. -/
theorem unschedulable_release_is_lost :
    (run resolveDeck
        (initialState (fun _ k => if k = "scratch2" then some 7 else some 0))
        [.hostSchedulable false, .jogTouch ⟨.deck1, 1⟩, .jogTouch ⟨.deck1, 0⟩]).getValue
        "[Channel1]" "scratch2_enable" = some 1
    ∧ (run resolveDeck
        (initialState (fun _ k => if k = "scratch2" then some 7 else some 0))
        [.hostSchedulable false, .jogTouch ⟨.deck1, 1⟩, .jogTouch ⟨.deck1, 0⟩]).getValue
        "[Channel1]" "scratch2" = some 7
    ∧ (run resolveDeck
        (initialState (fun _ k => if k = "scratch2" then some 7 else some 0))
        [.hostSchedulable false, .jogTouch ⟨.deck1, 1⟩, .jogTouch ⟨.deck1, 0⟩]).timers =
      []
    ∧ (run resolveDeck
        (initialState (fun _ k => if k = "scratch2" then some 7 else some 0))
        [.hostSchedulable false, .jogTouch ⟨.deck1, 1⟩,
          .jogTouch ⟨.deck1, 0⟩]).wheelTouchInertiaTimer .channel1 = some 0
    ∧ (run resolveDeck (initialState (fun _ _ => some 0))
        [.jog ⟨.deck1, 256⟩, .jogTouch ⟨.deck1, 1⟩, .hostSchedulable false,
          .jogTouch ⟨.deck1, 0⟩]).getValue "[Channel1]" "scratch2_enable" = some 1
    ∧ (run resolveDeck (initialState (fun _ _ => some 0))
        [.jog ⟨.deck1, 256⟩, .jogTouch ⟨.deck1, 1⟩, .hostSchedulable false,
          .jogTouch ⟨.deck1, 0⟩]).timers = [] := by
  decide

/-- C21, amended: if the timer service cannot schedule (`engine.beginTimer`
returns the handle `0`) when `jogTouchHandler` handles a touch-up on its
scheduled path, or when `finishJogTouch` re-arms its check, the handle `0` is
stored, no timer is created and every control, so `scratch2` and
`scratch2_enable`, is left as it was: the wheel is not released. -/
theorem unschedulable_keeps_scratch (rd : Group → Option Nat) (s : State)
    (field : Field) (group : Group) (hcan : s.canSchedule = false) :
    (field.value = 0 →
      inertiaBelowHundred
        (jsAbs (s.getValue (deckToGroup s field.group).name "scratch2")) = false →
      (jogTouchHandler rd s field).controls = s.controls
      ∧ (jogTouchHandler rd s field).wheelTouchInertiaTimer
          (deckToGroup s field.group) = some 0
      ∧ (jogTouchHandler rd s field).timers =
          (stopPending s (deckToGroup s field.group)).timers
      ∧ (jogTouchHandler rd s field).timerCount = s.timerCount)
    ∧ (s.tickReceived group = true →
      (finishJogTouch s group).controls = s.controls
      ∧ (finishJogTouch s group).wheelTouchInertiaTimer group = some 0
      ∧ (finishJogTouch s group).timers = s.timers
      ∧ (finishJogTouch s group).timerCount = s.timerCount) := by
  constructor
  · intro hv hb
    have hcan2 : (stopPending s (deckToGroup s field.group)).canSchedule = false := by
      rw [(stopPending_rest s _).2.2.1]; exact hcan
    rw [jogTouchHandler_up rd s field hv, hb]
    refine ⟨?_, ?_, ?_, ?_⟩
    · simp [State.beginTimer, hcan2, (stopPending_rest s _).1]
    · simp [State.beginTimer, hcan2]
    · simp [State.beginTimer, hcan2]
    · simp [State.beginTimer, hcan2, (stopPending_rest s _).2.1]
  · intro ht
    rw [finishJogTouch_ticked s group ht]
    simp [hcan]

/-- C21 amended, at a concrete input: `scratch2` reads `7`, scratching is on
and the timer service is unable; letting go of the left wheel leaves the
controls as they were and stores the handle `0`. -/
theorem unschedulable_keeps_scratch_witness :
    (jogTouchHandler resolveDeck { fastState with canSchedule := false }
        ⟨.deck1, 0⟩).controls = fastState.controls
    ∧ (jogTouchHandler resolveDeck { fastState with canSchedule := false }
        ⟨.deck1, 0⟩).wheelTouchInertiaTimer .channel1 = some 0 := by
  have h := (unschedulable_keeps_scratch resolveDeck
    { fastState with canSchedule := false } ⟨.deck1, 0⟩ .channel1 rfl).1 rfl
    (by decide)
  exact ⟨h.1, h.2.1⟩

/-! ## The wheel display -/

/-- C23, as stated, fails: for segment `7` and the angle `0.1` (the double
`3602879701896397 / 2 ^ 55`) the shortest distance on the wheel of `8` units
is `8 - |0.1 - 7|`, about `1.1000000000000000055`, but the function rounds
`angle + 8` and the subtraction to doubles and returns
`2476979795053772 / 2 ^ 51 = 1.0999999999999996...`. -/
theorem wheelSegmentDistance_not_exact :
    wheelSegmentDistance 7 (3602879701896397 / 36028797018963968) =
        2476979795053772 / 2251799813685248
    ∧ min |(3602879701896397 / 36028797018963968 : ℚ) - 7|
          (8 - |(3602879701896397 / 36028797018963968 : ℚ) - 7|) =
        39631676720860365 / 36028797018963968
    ∧ wheelSegmentDistance 7 (3602879701896397 / 36028797018963968) ≠
        min |(3602879701896397 / 36028797018963968 : ℚ) - 7|
          (8 - |(3602879701896397 / 36028797018963968 : ℚ) - 7|) := by
  decide!

/-- C23, amended: for a segment number `s` in `0..7` and an angle
`0 <= a < 8`, `wheelSegmentDistance` returns a value in `[0, 4]` that differs
from the shortest distance `min(|a - s|, 8 - |a - s|)` on the wheel of `8`
units by at most `2 ^ -49`, the rounding of its additions and subtractions. -/
theorem wheelSegmentDistance_near_shortest (segNum : ℕ) (angle : ℚ)
    (hs : segNum ≤ 7) (ha0 : 0 ≤ angle) (ha : angle < 8) :
    0 ≤ wheelSegmentDistance segNum angle
    ∧ wheelSegmentDistance segNum angle ≤ 4
    ∧ |wheelSegmentDistance segNum angle
        - min |angle - segNum| (8 - |angle - segNum|)| ≤ 1 / 2 ^ 49 := by
  have hq : (segNum : ℚ) ≤ 7 := by exact_mod_cast hs
  have hq0 : (0 : ℚ) ≤ segNum := Nat.cast_nonneg segNum
  have hle : ∀ (q : ℚ) (c : ℤ), |q| < 16 → q ≤ c → roundDouble q ≤ c :=
    fun q c h1 h2 => roundDouble_le_int q c (lt_trans h1 (by norm_num)) h2
  have hge : ∀ (q : ℚ) (c : ℤ), |q| < 16 → (c : ℚ) ≤ q → (c : ℚ) ≤ roundDouble q :=
    fun q c h1 h2 => roundDouble_ge_int q c (lt_trans h1 (by norm_num)) h2
  have herr8 : ∀ q : ℚ, |q| < 8 → |roundDouble q - q| ≤ 1 / 2 ^ 51 := by
    intro q h
    have h1 := roundDouble_error q 3 (by norm_num; exact h)
    have e : (2 : ℚ) ^ ((3 : ℤ) - 54) = 1 / 2 ^ 51 := by
      rw [show ((3 : ℤ) - 54) = -((51 : ℕ) : ℤ) by norm_num, zpow_neg, zpow_natCast]
      norm_num
    rw [e] at h1
    exact h1
  have herr16 : ∀ q : ℚ, |q| < 16 → |roundDouble q - q| ≤ 1 / 2 ^ 50 := by
    intro q h
    have h1 := roundDouble_error q 4 (by norm_num; exact h)
    have e : (2 : ℚ) ^ ((4 : ℤ) - 54) = 1 / 2 ^ 50 := by
      rw [show ((4 : ℤ) - 54) = -((50 : ℕ) : ℤ) by norm_num, zpow_neg, zpow_natCast]
      norm_num
    rw [e] at h1
    exact h1
  have hneg : roundDouble ((segNum : ℚ) - angle) = -roundDouble (angle - segNum) := by
    rw [← roundDouble_neg]
    congr 1
    ring
  have hx8 : |angle - (segNum : ℚ)| < 8 := abs_lt.mpr ⟨by linarith, by linarith⟩
  have hx16 : |angle - (segNum : ℚ)| < 16 := lt_trans hx8 (by norm_num)
  have hex := herr8 (angle - segNum) hx8
  unfold wheelSegmentDistance
  rw [hneg, abs_neg]
  by_cases hbig : |roundDouble (angle - (segNum : ℚ))| > 4
  · rw [if_pos hbig]
    have hx4 : 4 < |angle - (segNum : ℚ)| := by
      by_contra hcon
      have hcon2 := abs_le.mp (not_lt.mp hcon)
      have h1 : roundDouble (angle - segNum) ≤ ((4 : ℤ) : ℚ) :=
        hle _ 4 hx16 (by push_cast; linarith [hcon2.2])
      have h2 : (((-4 : ℤ)) : ℚ) ≤ roundDouble (angle - segNum) :=
        hge _ (-4) hx16 (by push_cast; linarith [hcon2.1])
      push_cast at h1 h2
      exact absurd (abs_le.mpr ⟨h2, h1⟩) (not_le.mpr hbig)
    by_cases hgt : angle > (segNum : ℚ)
    · rw [if_pos hgt]
      have hxa : |angle - (segNum : ℚ)| = angle - segNum := abs_of_pos (by linarith)
      rw [hxa] at hx4
      have h8 : roundDouble ((segNum : ℚ) + 8) = (segNum : ℚ) + 8 := by
        have h := roundDouble_int ((segNum : ℤ) + 8) (by
          push_cast
          rw [abs_of_nonneg (by linarith)]
          calc (segNum : ℚ) + 8 ≤ 15 := by linarith
            _ < 2 ^ (53 : ℤ) := by norm_num)
        push_cast at h
        exact h
      rw [h8, hxa]
      have hy8 : |angle - ((segNum : ℚ) + 8)| < 8 := abs_lt.mpr ⟨by linarith, by linarith⟩
      have hy16 : |angle - ((segNum : ℚ) + 8)| < 16 := lt_trans hy8 (by norm_num)
      have hr1 : (((-4 : ℤ)) : ℚ) ≤ roundDouble (angle - ((segNum : ℚ) + 8)) :=
        hge _ (-4) hy16 (by push_cast; linarith)
      have hr2 : roundDouble (angle - ((segNum : ℚ) + 8)) ≤ ((0 : ℤ) : ℚ) :=
        hle _ 0 hy16 (by push_cast; linarith)
      push_cast at hr1 hr2
      have he := abs_le.mp (herr8 _ hy8)
      rw [abs_of_nonpos hr2, min_eq_right (by linarith)]
      refine ⟨by linarith, by linarith, ?_⟩
      rw [abs_le]
      have h49 : (1 : ℚ) / 2 ^ 51 ≤ 1 / 2 ^ 49 := by norm_num
      constructor <;> linarith [he.1, he.2]
    · rw [if_neg hgt]
      have hxa : |angle - (segNum : ℚ)| = -(angle - segNum) :=
        abs_of_nonpos (by linarith [not_lt.mp hgt])
      rw [hxa] at hx4
      rw [hxa]
      have hb16 : |angle + 8| < 16 := abs_lt.mpr ⟨by linarith, by linarith⟩
      have hb1 : (((8 : ℤ)) : ℚ) ≤ roundDouble (angle + 8) :=
        hge _ 8 hb16 (by push_cast; linarith)
      have hb2 : roundDouble (angle + 8) ≤ (((segNum : ℤ) + 4 : ℤ) : ℚ) :=
        hle _ ((segNum : ℤ) + 4) hb16 (by push_cast; linarith)
      push_cast at hb1 hb2
      have heb := abs_le.mp (herr16 _ hb16)
      have hz8 : |roundDouble (angle + 8) - (segNum : ℚ)| < 8 :=
        abs_lt.mpr ⟨by linarith, by linarith⟩
      have hz16 : |roundDouble (angle + 8) - (segNum : ℚ)| < 16 :=
        lt_trans hz8 (by norm_num)
      have hr1 : (((1 : ℤ)) : ℚ) ≤ roundDouble (roundDouble (angle + 8) - segNum) :=
        hge _ 1 hz16 (by push_cast; linarith)
      have hr2 : roundDouble (roundDouble (angle + 8) - segNum) ≤ ((4 : ℤ) : ℚ) :=
        hle _ 4 hz16 (by push_cast; linarith)
      push_cast at hr1 hr2
      have he := abs_le.mp (herr8 _ hz8)
      rw [abs_of_nonneg (by linarith), min_eq_right (by linarith)]
      refine ⟨by linarith, by linarith, ?_⟩
      rw [abs_le]
      have h49 : (1 : ℚ) / 2 ^ 51 + 1 / 2 ^ 50 ≤ 1 / 2 ^ 49 := by norm_num
      constructor <;> linarith [he.1, he.2, heb.1, heb.2]
  · rw [if_neg hbig]
    have hsmall : |roundDouble (angle - (segNum : ℚ))| ≤ 4 := not_lt.mp hbig
    refine ⟨abs_nonneg _, hsmall, ?_⟩
    have hdiff : abs (abs (roundDouble (angle - (segNum : ℚ))) - abs (angle - (segNum : ℚ)))
        ≤ 1 / 2 ^ 51 :=
      le_trans (abs_abs_sub_abs_le_abs_sub _ _) hex
    have h49 : (1 : ℚ) / 2 ^ 51 ≤ 1 / 2 ^ 49 := by norm_num
    have hd := abs_le.mp hdiff
    by_cases hx4 : |angle - (segNum : ℚ)| ≤ 4
    · rw [min_eq_left (by linarith)]
      exact le_trans hdiff h49
    · rw [min_eq_right (by linarith [not_le.mp hx4])]
      rw [abs_le]
      constructor <;> linarith [hd.1, hd.2, not_le.mp hx4]

/-- C23 amended, at a concrete input: segment `7` and angle `1 / 2` are
`3 / 2` apart across the wrap, and the function returns a value in `[0, 4]`
within `2 ^ -49` of it. -/
theorem wheelSegmentDistance_near_shortest_witness :
    0 ≤ wheelSegmentDistance ((7 : ℕ) : ℚ) (1 / 2)
    ∧ wheelSegmentDistance ((7 : ℕ) : ℚ) (1 / 2) ≤ 4
    ∧ |wheelSegmentDistance ((7 : ℕ) : ℚ) (1 / 2)
        - min |(1 / 2 : ℚ) - ((7 : ℕ) : ℚ)| (8 - |(1 / 2 : ℚ) - ((7 : ℕ) : ℚ)|)|
        ≤ 1 / 2 ^ 49 :=
  wheelSegmentDistance_near_shortest 7 (1 / 2) (by decide) (by norm_num) (by norm_num)

/-! ## Active decks -/

theorem finishJogTouch_activeDecks (s : State) (g : Group) :
    (finishJogTouch s g).activeDecks = s.activeDecks := by
  cases h : s.tickReceived g
  · rw [finishJogTouch_quiet s g h]
    simp [State.setValue]
  · rw [finishJogTouch_ticked s g h]

theorem stopPending_activeDecks (s : State) (g : Group) :
    (stopPending s g).activeDecks = s.activeDecks := by
  unfold stopPending
  split_ifs <;> simp [State.stopTimer]

theorem jogTouchHandler_activeDecks (rd : Group → Option Nat) (s : State)
    (field : Field) : (jogTouchHandler rd s field).activeDecks = s.activeDecks := by
  by_cases hv : field.value = 0
  · rw [jogTouchHandler_up rd s field hv]
    split_ifs
    · rw [finishJogTouch_activeDecks, stopPending_activeDecks]
    · by_cases hcan : (stopPending s (deckToGroup s field.group)).canSchedule = true
      · simp [State.beginTimer, hcan, stopPending_activeDecks]
      · simp [State.beginTimer, hcan, stopPending_activeDecks]
  · cases hr : rd (deckToGroup s field.group) with
    | none =>
      have e : jogTouchHandler rd s field = stopPending s (deckToGroup s field.group) := by
        simp only [jogTouchHandler, Group.name_ne_empty, if_false, hv, ne_eq,
          not_false_eq_true, if_true, hr]
      rw [e, stopPending_activeDecks]
    | some d =>
      rw [jogTouchHandler_down rd s field d hv hr]
      simp [State.setValue, stopPending_activeDecks]

theorem fireTimer_activeDecks (s : State) (handle : Nat) :
    (fireTimer s handle).activeDecks = s.activeDecks := by
  rcases fireTimer_cases s handle with h | ⟨t, _, _, h⟩
  · rw [h]
  · rw [h, finishJogTouch_activeDecks]
    split_ifs <;> rfl

theorem step_activeDecks (rd : Group → Option Nat) (s : State) (e : Event) :
    (step rd s e).activeDecks = s.activeDecks := by
  cases e with
  | jogTouch field => exact jogTouchHandler_activeDecks rd s field
  | jog field =>
    simp only [step]
    rw [jogHandler_eq]
    split_ifs <;> simp [State.setValue, wheelDeltas]
  | timerFires handle => exact fireTimer_activeDecks s handle
  | hostSchedulable able => rfl

theorem deckSwitchHandler_exclusive (s : State) (field : Field)
    (h13 : s.activeDecks 1 = !s.activeDecks 3)
    (h24 : s.activeDecks 2 = !s.activeDecks 4) :
    (deckSwitchHandler s field).activeDecks 1 = !(deckSwitchHandler s field).activeDecks 3
    ∧ (deckSwitchHandler s field).activeDecks 2 =
        !(deckSwitchHandler s field).activeDecks 4 := by
  unfold deckSwitchHandler
  split_ifs <;> simp [Function.update, h13, h24]

theorem runInputs_exclusive (rd : Group → Option Nat) (inputs : List Input)
    (s : State) (h13 : s.activeDecks 1 = !s.activeDecks 3)
    (h24 : s.activeDecks 2 = !s.activeDecks 4) :
    (runInputs rd s inputs).activeDecks 1 = !(runInputs rd s inputs).activeDecks 3
    ∧ (runInputs rd s inputs).activeDecks 2 =
        !(runInputs rd s inputs).activeDecks 4 := by
  induction inputs generalizing s with
  | nil => exact ⟨h13, h24⟩
  | cons i rest ih =>
    cases i with
    | wheel event =>
      exact ih (stepInput rd s (.wheel event))
        (by simp only [stepInput, step_activeDecks]; exact h13)
        (by simp only [stepInput, step_activeDecks]; exact h24)
    | deckSwitch field =>
      exact ih (stepInput rd s (.deckSwitch field))
        (deckSwitchHandler_exclusive s field h13 h24).1
        (deckSwitchHandler_exclusive s field h13 h24).2

/-- C30: in every state reachable from the initial state through presses and
releases of the deck switches (and through events of the jog wheels), exactly
one of the decks `1` and `3` and exactly one of the decks `2` and `4` is
active, so `deckToGroup("deck1")` is `[Channel1]` or `[Channel3]` and
`deckToGroup("deck2")` is `[Channel2]` or `[Channel4]`, never the deck name
itself. -/
theorem reachable_decks_exclusive (rd : Group → Option Nat)
    (controls : String → String → JsNum) (inputs : List Input) :
    (((runInputs rd (initialState controls) inputs).activeDecks 1 = true
        ∧ (runInputs rd (initialState controls) inputs).activeDecks 3 = false)
      ∨ ((runInputs rd (initialState controls) inputs).activeDecks 1 = false
        ∧ (runInputs rd (initialState controls) inputs).activeDecks 3 = true))
    ∧ (((runInputs rd (initialState controls) inputs).activeDecks 2 = true
        ∧ (runInputs rd (initialState controls) inputs).activeDecks 4 = false)
      ∨ ((runInputs rd (initialState controls) inputs).activeDecks 2 = false
        ∧ (runInputs rd (initialState controls) inputs).activeDecks 4 = true))
    ∧ (deckToGroup (runInputs rd (initialState controls) inputs) .deck1 = .channel1
      ∨ deckToGroup (runInputs rd (initialState controls) inputs) .deck1 = .channel3)
    ∧ (deckToGroup (runInputs rd (initialState controls) inputs) .deck2 = .channel2
      ∨ deckToGroup (runInputs rd (initialState controls) inputs) .deck2 =
          .channel4) := by
  have h := runInputs_exclusive rd inputs (initialState controls)
    (by simp [initialState]) (by simp [initialState])
  refine ⟨?_, ?_, ?_, ?_⟩
  · cases h3 : (runInputs rd (initialState controls) inputs).activeDecks 3 <;>
      simp [h.1, h3]
  · cases h4 : (runInputs rd (initialState controls) inputs).activeDecks 4 <;>
      simp [h.2, h4]
  · cases h3 : (runInputs rd (initialState controls) inputs).activeDecks 3 <;>
      simp [deckToGroup, h.1, h3]
  · cases h4 : (runInputs rd (initialState controls) inputs).activeDecks 4 <;>
      simp [deckToGroup, h.2, h4]

/-! ## Effect routing -/

theorem toString_digits :
    toString (1 : Nat) = "1" ∧ toString (2 : Nat) = "2" ∧ toString (3 : Nat) = "3"
    ∧ toString (4 : Nat) = "4" ∧ toString (5 : Nat) = "5" := by
  decide

/-- C24 fails on the code: for the effect units `1` to `4`, `toggleFX` writes
the key `group_[Channel1]_enable` for every channel of its inner loop.  After
`toggleFX` that control holds the state of `[Channel4]` and of the button of
the unit, and the controls that enable the unit on the channels `2`, `3` and
`4` are never written; only the quick effect (`5`) is routed per channel.
With effects off for `[Channel1]`, on for the other channels and the button
of unit `1` on, unit `1` ends up enabled on `[Channel1]` (the conjunction is
false) and its control for `[Channel2]` keeps its old value `0` (the
conjunction is true). -/
theorem toggleFX_writes_channel1_key (s : State) :
    (∀ n ∈ [1, 2, 3, 4],
        (toggleFX s).getValue ("[EffectRack1_EffectUnit" ++ toString n ++ "]")
            "group_[Channel1]_enable" =
          boolNum (s.fxEnabledState "[Channel4]" && s.fxButtonState n))
    ∧ (∀ n ∈ [1, 2, 3, 4], ∀ c ∈ [2, 3, 4],
        (toggleFX s).getValue ("[EffectRack1_EffectUnit" ++ toString n ++ "]")
            ("group_[Channel" ++ toString c ++ "]_enable") =
          s.getValue ("[EffectRack1_EffectUnit" ++ toString n ++ "]")
            ("group_[Channel" ++ toString c ++ "]_enable"))
    ∧ (∀ c ∈ [1, 2, 3, 4],
        (toggleFX s).getValue
            ("[QuickEffectRack1_[Channel" ++ toString c ++ "]_Effect1]") "enabled" =
          boolNum (s.fxEnabledState ("[Channel" ++ toString c ++ "]")
            && s.fxButtonState 5))
    ∧ (toggleFX fxSampleState).getValue "[EffectRack1_EffectUnit1]"
        "group_[Channel1]_enable" = some 1
    ∧ boolNum (fxSampleState.fxEnabledState "[Channel1]"
        && fxSampleState.fxButtonState 1) = some 0
    ∧ (toggleFX fxSampleState).getValue "[EffectRack1_EffectUnit1]"
        "group_[Channel2]_enable" = some 0
    ∧ boolNum (fxSampleState.fxEnabledState "[Channel2]"
        && fxSampleState.fxButtonState 1) = some 1 := by
  refine ⟨?_, ?_, ?_, by decide, by decide, by decide, by decide⟩
  · intro n hn
    simp only [List.mem_cons, List.mem_singleton, List.not_mem_nil, or_false] at hn
    rcases hn with rfl | rfl | rfl | rfl <;>
      simp +decide [toggleFX, toggleFXStep, State.setValue, State.getValue,
        toString_digits]
  · intro n hn c hc
    simp only [List.mem_cons, List.mem_singleton, List.not_mem_nil, or_false] at hn hc
    rcases hn with rfl | rfl | rfl | rfl <;> rcases hc with rfl | rfl | rfl <;>
      simp +decide [toggleFX, toggleFXStep, State.setValue, State.getValue,
        toString_digits]
  · intro c hc
    simp only [List.mem_cons, List.mem_singleton, List.not_mem_nil, or_false] at hc
    rcases hc with rfl | rfl | rfl | rfl <;>
      simp +decide [toggleFX, toggleFXStep, State.setValue, State.getValue,
        toString_digits]

end TraktorS3
